import Mathlib

/-!
# Verification of the MANTRA claimdrop contract (v2) core

Shallow embedding of `src/commands.rs` of the claimdrop contract.  The
contract state (the host key-value store) is modelled as an explicit
`ContractState` record; every mutation handler becomes a pure function
`ContractState → … → Except ContractError (ContractState × List BankMsgSend)`.
The host commits the returned state only on `Except.ok` (function `commit`
below), which models the CosmWasm transaction rollback on error.

`Uint128` values are modelled as `Nat`; the one place the handler code does
checked 128-bit arithmetic (`campaign.claimed.amount.checked_add`) is modelled
with an explicit bound check against `2^128 - 1`.  `Decimal` percentages are
modelled by their fixed-point atomics (value × 10^18), exactly as stored.

Functions from `helpers.rs` and `state.rs` (`compute_claimable_amount`,
`aggregate_claims`, `is_authorized`, `is_blacklisted`, `validate_campaign_params`,
…) are not part of the provided sources; their definitions below are modelled
from the specification and carry a doc comment saying so.
-/

namespace Claimdrop
/-- A coin: denomination plus integer amount (`cosmwasm_std::Coin`,
with `Uint128` modelled as `Nat`). -/
structure Coin where
  denom : String
  amount : Nat
deriving DecidableEq, Repr

/-- `DistributionType` from `mantra_claimdrop_std::msg`: a distribution slot is
either a lump sum unlocking at `startTime` or a linear vesting between
`startTime` and `endTime` with an optional cliff.  `percentage` is the Decimal
fixed-point atomics (×10^18). -/
inductive DistributionType where
  | lumpSum (percentage : Nat) (startTime : Nat)
  | linearVesting (percentage : Nat) (startTime : Nat) (endTime : Nat)
      (cliffDuration : Option Nat)
deriving DecidableEq, Repr

/-- The `Campaign` value object (singleton stored under `CAMPAIGN`). -/
structure Campaign where
  name : String
  description : String
  ty : String
  totalReward : Coin
  claimed : Coin
  distributionType : List DistributionType
  startTime : Nat
  endTime : Nat
  closed : Option Nat
deriving DecidableEq, Repr

/-- A per-slot claim record `(amount, timestamp)` (`Claim` in `state.rs`). -/
abbrev ClaimRecord := Nat × Nat

/-- The persistent store of the contract: the `CAMPAIGN` singleton, the
`ALLOCATIONS`, `CLAIMS`, `BLACKLIST` and `AUTHORIZED_WALLETS` maps, and the
`cw_ownable` owner.  Maps are association lists with at most one entry per
key (all writes go through `mapSave` / `setSave`, which first erase the key). -/
structure ContractState where
  campaign : Option Campaign
  allocations : List (String × Nat)
  claims : List (String × List (Nat × ClaimRecord))
  blacklist : List String
  authorizedWallets : List String
  owner : Option String
deriving DecidableEq, Repr

/-- The `ContractError` taxonomy (`mantra_claimdrop_std::error`), restricted
to the variants the embedded handlers produce. -/
inductive ContractError where
  | campaignError (reason : String)
  | unauthorized
  | addressBlacklisted
  | noAllocationFound (address : String)
  | allocationAlreadyExists (address : String)
  | invalidClaimAmount (reason : String)
  | nothingToClaim
  | exceededMaxClaimAmount
  | batchSizeLimitExceeded (actual : Nat) (max : Nat)
  | invalidCampaignParam (param : String) (reason : String)
  | invalidDistributionTimes (startTime : Nat) (endTime : Nat)
  | invalidInput (reason : String)
  | overflowError
  | ownershipError
deriving DecidableEq, Repr

/-- A queued `BankMsg::Send` transfer instruction. -/
structure BankMsgSend where
  toAddress : String
  amount : List Coin
deriving DecidableEq, Repr

/-- Result of a mutation handler: either an error (in which case the host
rolls back, see `commit`) or the new state plus queued transfers. -/
abbrev HandlerResult := Except ContractError (ContractState × List BankMsgSend)

/-- `Map::remove`: drop the entry for key `k`. -/
def mapRemove {κ α : Type} [DecidableEq κ] (l : List (κ × α)) (k : κ) :
    List (κ × α) :=
  l.filter (fun p => p.1 ≠ k)

/-- `Map::save`: store `v` under key `k`, replacing any previous entry. -/
def mapSave {κ α : Type} [DecidableEq κ] (l : List (κ × α)) (k : κ) (v : α) :
    List (κ × α) :=
  (k, v) :: mapRemove l k

/-- Lookup in an association list (`Map::may_load`). -/
def mapGet {κ α : Type} [DecidableEq κ] : List (κ × α) → κ → Option α
  | [], _ => none
  | e :: rest, k => if e.1 = k then some e.2 else mapGet rest k

/-- Set removal. -/
def setRemove (l : List String) (k : String) : List String :=
  l.filter (fun a => a ≠ k)

/-- Set membership write for `BLACKLIST` / `AUTHORIZED_WALLETS` (unit-valued
maps, modelled as lists of keys). -/
def setSave (l : List String) (k : String) : List String :=
  k :: setRemove l k

/-- `MAX_ALLOCATION_BATCH_SIZE` from `commands.rs`. -/
def MAX_ALLOCATION_BATCH_SIZE : Nat := 3000

/-- `MAX_AUTHORIZED_WALLETS_BATCH_SIZE` from `commands.rs`. -/
def MAX_AUTHORIZED_WALLETS_BATCH_SIZE : Nat := 1000

/-- `Uint128::MAX`. -/
def U128MAX : Nat := 2 ^ 128 - 1

/-- `Uint128::checked_add`, overflow yields `none` (converted to an error by
the caller, per the source's `?` on `checked_add`). -/
def checked_add (a b : Nat) : Option Nat :=
  if a + b ≤ U128MAX then some (a + b) else none

/-- Modelled from the spec: `is_owner` in `state.rs` (absent from `src/`),
§4.3 — exact equality with the stored owner. -/
def is_owner (st : ContractState) (s : String) : Bool :=
  st.owner = some s

/-- Modelled from the spec: `is_authorized` in `state.rs` (absent from
`src/`), §4.3 — owner or member of the authorized-operators set. -/
def is_authorized (st : ContractState) (s : String) : Bool :=
  is_owner st s || st.authorizedWallets.contains s

/-- Modelled from the spec: `is_blacklisted` in `state.rs` (absent from
`src/`), §4.3 — membership in the blacklist set. -/
def is_blacklisted (st : ContractState) (a : String) : Bool :=
  st.blacklist.contains a

/-- `get_allocation` in `state.rs` (absent from `src/`): load the
`ALLOCATIONS` entry for an address. -/
def get_allocation (st : ContractState) (a : String) : Option Nat :=
  mapGet st.allocations a

/-- `get_claims_for_address` in `state.rs` (absent from `src/`): the stored
per-slot claims of an address, empty if none recorded yet. -/
def get_claims_for_address (st : ContractState) (a : String) :
    List (Nat × ClaimRecord) :=
  (mapGet st.claims a).getD []

/-- Modelled from the spec: `Campaign::has_started` in
`mantra_claimdrop_std` (absent from `src/`), §4.4 — `t ≥ campaign.start_time`. -/
def has_started (c : Campaign) (now : Nat) : Bool :=
  c.startTime ≤ now

/-- Decimal scale: one unit = 10^18 atomics. -/
def percScale : Nat := 10 ^ 18

/-- The percentage atomics of a slot. -/
def slotPercentage : DistributionType → Nat
  | .lumpSum p _ => p
  | .linearVesting p _ _ _ => p

/-- `floor(A × percentage)` for a fully vested slot (§4.2). -/
def slotFloor (A p : Nat) : Nat :=
  A * p / percScale

/-- Modelled from the spec: per-slot maximum cumulative vested amount at time
`now` (§4.2).  Lump sum: everything at `startTime`; linear vesting: nothing
before the cliff, everything from `endTime`, proportional in between, with
the fraction applied to the allocation (multiply first, then divide). -/
def slotVested (A now : Nat) : DistributionType → Nat
  | .lumpSum p s => if now < s then 0 else slotFloor A p
  | .linearVesting p s e cliff =>
    if now < s + cliff.getD 0 then 0
    else if e ≤ now then slotFloor A p
    else A * p * (now - s) / (percScale * (e - s))

/-- Modelled from the spec: `done_k(t)` (§4.4 Step 2) — the slot has finished
vesting at `now`. -/
def slotDone (now : Nat) : DistributionType → Bool
  | .lumpSum _ s => s ≤ now
  | .linearVesting _ _ e _ => e ≤ now

/-- Previously recorded claim amount for slot `k` (0 if absent). -/
def prevAmount (prev : List (Nat × ClaimRecord)) (k : Nat) : Nat :=
  ((mapGet prev k).map Prod.fst).getD 0

/-- Sum of the fully-vested floors of all slots, `Σ_k floor(A × p_k)`. -/
def sumFloors (A : Nat) : List DistributionType → Nat
  | [] => 0
  | d :: rest => slotFloor A (slotPercentage d) + sumFloors A rest

/-- Modelled from the spec: the rounding-compensation delta (§4.4 Step 2),
`A − Σ_k floor(A × p_k)`, added only when every slot has finished vesting
(and there is a slot to add it to). -/
def compDelta (A now : Nat) (dist : List DistributionType) : Nat :=
  if !dist.isEmpty && dist.all (slotDone now) then A - sumFloors A dist else 0

/-- Per-slot newly claimable amounts `new_k = max(0, vested_k − C_k)`
(§4.4 Step 1), indexed from `k`; mirrors `iter().enumerate()`. -/
def rawEntriesFrom (A now : Nat) (prev : List (Nat × ClaimRecord)) :
    Nat → List DistributionType → List (Nat × Nat)
  | _, [] => []
  | k, d :: rest =>
    (k, slotVested A now d - prevAmount prev k) :: rawEntriesFrom A now prev (k + 1) rest

/-- Modelled from the spec: the per-slot new-claimable map produced by
`compute_claimable_amount` in `helpers.rs` (absent from `src/`): the raw
amounts of §4.4 Step 1, with the compensation delta folded into the last
slot (the greatest index, all slots being finished whenever the delta is
nonzero), keeping only slots with a positive amount. -/
def newClaimEntries (dist : List DistributionType) (A : Nat)
    (prev : List (Nat × ClaimRecord)) (now : Nat) : List (Nat × Nat) :=
  let comp := compDelta A now dist
  let raw := rawEntriesFrom A now prev 0 dist
  (raw.map (fun kv => if kv.1 = dist.length - 1 then (kv.1, kv.2 + comp) else kv)).filter
    (fun kv => 0 < kv.2)

/-- Sum of the values of a slot-indexed amount list. -/
def sumVals : List (Nat × Nat) → Nat
  | [] => 0
  | kv :: rest => kv.2 + sumVals rest

/-- Modelled from the spec: the maximum claimable amount `M = Σ_k new_k`
(compensation included) of §4.4 Step 3, as returned by
`compute_claimable_amount`. -/
def maxClaimable (dist : List DistributionType) (A : Nat)
    (prev : List (Nat × ClaimRecord)) (now : Nat) : Nat :=
  sumVals (newClaimEntries dist A prev now)

/-- Is the slot a lump sum? -/
def isLumpSum : DistributionType → Bool
  | .lumpSum _ _ => true
  | .linearVesting _ _ _ _ => false

/-- The slot indices (starting at `k`) whose variant matches `wantLump` and
which have an entry in `entries` — the `lump_sum_slots_with_new_claims` /
`linear_vesting_slots_with_new_claims` lists of `claim` in `commands.rs`.
Enumeration order is ascending, so the source's `sort()` is the identity
here and is not repeated. -/
def slotsWithNewClaims (entries : List (Nat × Nat)) (wantLump : Bool) :
    Nat → List DistributionType → List Nat
  | _, [] => []
  | k, d :: rest =>
    (if isLumpSum d = wantLump ∧ (mapGet entries k).isSome then [k] else []) ++
      slotsWithNewClaims entries wantLump (k + 1) rest

/-- `distribute_to_slots` from `claim` in `commands.rs`: walk the slot list,
taking `min(remaining, new_k)` from each slot with a positive take, recording
`(slot, (take, now))`, until `remaining` is exhausted. -/
def distribute_to_slots (entries : List (Nat × Nat)) (now : Nat) :
    List Nat → Nat → List (Nat × ClaimRecord) → Nat × List (Nat × ClaimRecord)
  | [], remaining, acc => (remaining, acc)
  | k :: rest, remaining, acc =>
    if remaining = 0 then (remaining, acc)
    else
      let avail := (mapGet entries k).getD 0
      let take := min remaining avail
      if 0 < take then
        distribute_to_slots entries now rest (remaining - take) (acc ++ [(k, (take, now))])
      else
        distribute_to_slots entries now rest remaining acc

/-- The two-phase partition of `claim` in `commands.rs`: distribute the
claim amount to lump-sum slots first (ascending index), then to
linear-vesting slots (ascending index).  Returns the undistributed
remainder and the recorded per-slot claims. -/
def distribute_claim (dist : List DistributionType) (entries : List (Nat × Nat))
    (actual now : Nat) : Nat × List (Nat × ClaimRecord) :=
  let lumpSlots := slotsWithNewClaims entries true 0 dist
  let linSlots := slotsWithNewClaims entries false 0 dist
  let r1 := distribute_to_slots entries now lumpSlots actual []
  distribute_to_slots entries now linSlots r1.1 r1.2

/-- Modelled from the spec: `aggregate_claims` in `helpers.rs` (absent from
`src/`), §4.4 Step 7 — merge the per-slot deltas into the previous claims
record by summing amounts and overwriting the timestamp. -/
def aggregate_claims (prev delta : List (Nat × ClaimRecord)) :
    List (Nat × ClaimRecord) :=
  delta.foldl
    (fun acc kv =>
      match mapGet acc kv.1 with
      | some r => mapSave acc kv.1 (r.1 + kv.2.1, kv.2.2)
      | none => mapSave acc kv.1 kv.2)
    prev

/-- Sum of the stored amounts of a per-slot claims record. -/
def sumClaimAmounts : List (Nat × ClaimRecord) → Nat
  | [] => 0
  | kv :: rest => kv.2.1 + sumClaimAmounts rest

/-- The reason string of the distribution-invariant bug error in `claim`. -/
def distributionBugMsg : String :=
  "Distribution error: tokens remain undistributed. This indicates a bug in the claimable amount calculation."

/-- The tail of `claim` in `commands.rs` after the claim amount has been
resolved: `NothingToClaim` on zero, the bank-solvency check, the two-phase
distribution, the distribution invariant, aggregation, the checked increment
of `campaign.claimed.amount`, the two saves, and the defense-in-depth
`ExceededMaxClaimAmount` check (performed after the saves; on error the host
discards the writes, cf. `commit`). -/
def claimTail (st : ContractState) (c : Campaign) (receiver : String) (A : Nat)
    (prev : List (Nat × ClaimRecord)) (entries : List (Nat × Nat))
    (actual now : Nat) (bal : String → Nat) : HandlerResult :=
  if actual = 0 then .error .nothingToClaim
  else if bal c.totalReward.denom < actual then
    .error (.campaignError "no funds available to claim")
  else
    let r := distribute_claim c.distributionType entries actual now
    if r.1 ≠ 0 then .error (.campaignError distributionBugMsg)
    else
      let updated := aggregate_claims prev r.2
      match checked_add c.claimed.amount actual with
      | none => .error .overflowError
      | some newClaimed =>
        let c' := { c with claimed := { c.claimed with amount := newClaimed } }
        let st' := { st with
          campaign := some c'
          claims := mapSave st.claims receiver updated }
        if A < sumClaimAmounts updated then .error .exceededMaxClaimAmount
        else
          .ok (st', [{ toAddress := receiver,
                       amount := [{ denom := c.totalReward.denom, amount := actual }] }])

/-- `claim` from `commands.rs`: prerequisite checks (campaign exists, has
started, not closed, sender authorized or claiming for self, receiver not
blacklisted, allocation present), claimable-amount computation, resolution
of an explicit requested amount, then `claimTail`.  `bal` is the host bank
balance of the contract; address validation is the host's and is modelled
as the identity. -/
def claim (st : ContractState) (bal : String → Nat) (now : Nat)
    (sender : String) (receiverOpt : Option String) (amountOpt : Option Nat) :
    HandlerResult :=
  match st.campaign with
  | none => .error (.campaignError "there's not an active campaign")
  | some c =>
    if !has_started c now then .error (.campaignError "not started")
    else if c.closed.isSome then
      .error (.campaignError "has been closed, cannot claim")
    else
      let receiver := receiverOpt.getD sender
      if !(is_authorized st sender || sender = receiver) then .error .unauthorized
      else if is_blacklisted st receiver then .error .addressBlacklisted
      else
        match get_allocation st receiver with
        | none => .error (.noAllocationFound receiver)
        | some A =>
          let prev := get_claims_for_address st receiver
          let entries := newClaimEntries c.distributionType A prev now
          let maxC := sumVals entries
          match amountOpt with
          | some requested =>
            if requested = 0 then
              .error (.invalidClaimAmount "amount must be greater than zero")
            else if maxC < requested then
              .error (.invalidClaimAmount
                "requested amount exceeds available claimable amount")
            else claimTail st c receiver A prev entries requested now bal
          | none => claimTail st c receiver A prev entries maxC now bal

/-- `sweep` from `commands.rs`: owner-only recovery of non-reward tokens.
`cw_ownable::assert_owner` is modelled as equality with the stored owner. -/
def sweep (st : ContractState) (bal : String → Nat) (sender denom : String)
    (amountOpt : Option Nat) : HandlerResult :=
  match st.owner with
  | none => .error .ownershipError
  | some o =>
    if sender ≠ o then .error .ownershipError
    else if (match st.campaign with
             | some c => decide (denom = c.totalReward.denom)
             | none => false) then
      .error (.campaignError "Cannot sweep reward denom. Use CloseCampaign instead")
    else
      let balance := bal denom
      let sweepRes : Except ContractError Nat :=
        match amountOpt with
        | some amt =>
          if balance < amt then
            .error (.invalidCampaignParam "amount"
              "Requested amount exceeds available balance")
          else .ok amt
        | none => .ok balance
      match sweepRes with
      | .error e => .error e
      | .ok sweepAmount =>
        if sweepAmount = 0 then
          .error (.campaignError "No tokens to sweep")
        else
          .ok (st, [{ toAddress := o,
                      amount := [{ denom := denom, amount := sweepAmount }] }])

/-- The allocation-storing loop of `add_allocations`: reject any address that
already has an allocation (including one stored earlier in the same batch),
otherwise save each pair. -/
def addAllocLoop (st : ContractState) :
    List (String × Nat) → HandlerResult
  | [] => .ok (st, [])
  | (addr, amt) :: rest =>
    if (mapGet st.allocations addr).isSome then
      .error (.allocationAlreadyExists addr)
    else
      addAllocLoop { st with allocations := mapSave st.allocations addr amt } rest

/-- `add_allocations` from `commands.rs`: authorized callers only, batch
size at most 3000, only before the campaign has started (or before any
campaign exists), then the storing loop. -/
def add_allocations (st : ContractState) (now : Nat) (sender : String)
    (allocations : List (String × Nat)) : HandlerResult :=
  if !is_authorized st sender then .error .unauthorized
  else if MAX_ALLOCATION_BATCH_SIZE < allocations.length then
    .error (.batchSizeLimitExceeded allocations.length MAX_ALLOCATION_BATCH_SIZE)
  else if (match st.campaign with
           | some c => has_started c now
           | none => false) then
    .error (.campaignError "cannot upload allocations after campaign has started")
  else addAllocLoop st allocations

/-- `blacklist_address` from `commands.rs`: authorized callers only; the
owner can never be blacklisted; otherwise insert into or remove from the
blacklist. -/
def blacklist_address (st : ContractState) (sender address : String)
    (blacklist : Bool) : HandlerResult :=
  if !is_authorized st sender then .error .unauthorized
  else if (match st.owner with
           | some o => decide (o = address)
           | none => false) then
    .error (.campaignError "Cannot blacklist the campaign owner")
  else if blacklist then
    .ok ({ st with blacklist := setSave st.blacklist address }, [])
  else
    .ok ({ st with blacklist := setRemove st.blacklist address }, [])

/-- `remove_address` from `commands.rs`: authorized callers only, only
before the campaign has started; idempotent removal of the allocation and
of any blacklist entry. -/
def remove_address (st : ContractState) (now : Nat) (sender address : String) :
    HandlerResult :=
  if !is_authorized st sender then .error .unauthorized
  else if (match st.campaign with
           | some c => has_started c now
           | none => false) then
    .error (.campaignError "cannot remove an address allocation after campaign has started")
  else
    .ok ({ st with
            allocations := mapRemove st.allocations address
            blacklist := setRemove st.blacklist address }, [])

/-- `replace_address` from `commands.rs`: migrate the allocation, the claims
record and any blacklist entry of `oldAddress` to `newAddress`; fail if the
old address has no allocation or the new one already has one. -/
def replace_address (st : ContractState) (sender oldAddress newAddress : String) :
    HandlerResult :=
  if !is_authorized st sender then .error .unauthorized
  else
    match mapGet st.allocations oldAddress with
    | none => .error (.noAllocationFound oldAddress)
    | some oldAllocation =>
      if (mapGet st.allocations newAddress).isSome then
        .error (.allocationAlreadyExists newAddress)
      else
        let st1 := { st with
          allocations := mapSave (mapRemove st.allocations oldAddress) newAddress
            oldAllocation }
        let oldClaims := get_claims_for_address st oldAddress
        let st2 :=
          if oldClaims.isEmpty then st1
          else { st1 with
            claims := mapSave (mapRemove st1.claims oldAddress) newAddress oldClaims }
        let st3 :=
          if is_blacklisted st oldAddress then
            { st2 with blacklist := setSave (setRemove st2.blacklist oldAddress) newAddress }
          else st2
        .ok (st3, [])

/-- `manage_authorized_wallets` from `commands.rs`: owner only, batch at most
1000 and non-empty, then insert into or remove from the authorized set. -/
def manage_authorized_wallets (st : ContractState) (sender : String)
    (addresses : List String) (authorized : Bool) : HandlerResult :=
  if st.owner ≠ some sender then .error .ownershipError
  else if MAX_AUTHORIZED_WALLETS_BATCH_SIZE < addresses.length then
    .error (.batchSizeLimitExceeded addresses.length MAX_AUTHORIZED_WALLETS_BATCH_SIZE)
  else if addresses.isEmpty then
    .error (.invalidInput "addresses cannot be empty")
  else
    .ok ({ st with
            authorizedWallets :=
              addresses.foldl
                (fun acc a => if authorized then setSave acc a else setRemove acc a)
                st.authorizedWallets }, [])

/-- The campaign-creation parameters (`CampaignParams`). -/
structure CampaignParams where
  name : String
  description : String
  ty : String
  totalReward : Coin
  distributionType : List DistributionType
  startTime : Nat
  endTime : Nat
deriving DecidableEq, Repr

/-- `Campaign::from_params` (the constructed campaign starts with zero
claimed and is not closed). -/
def Campaign.from_params (p : CampaignParams) : Campaign :=
  { name := p.name
    description := p.description
    ty := p.ty
    totalReward := p.totalReward
    claimed := { denom := p.totalReward.denom, amount := 0 }
    distributionType := p.distributionType
    startTime := p.startTime
    endTime := p.endTime
    closed := none }

/-- Modelled from the spec: per-slot validation inside
`validate_campaign_params` in `helpers.rs` (absent from `src/`), §4.1/§3:
percentage in (0, 1]; for linear vesting `start < end` (violation yields
`InvalidDistributionTimes`) and any cliff shorter than the vesting span. -/
def validateSlot : DistributionType → Except ContractError Unit
  | .lumpSum p _ =>
    if p = 0 ∨ percScale < p then
      .error (.invalidCampaignParam "distribution_type" "percentage out of range")
    else .ok ()
  | .linearVesting p s e cliff =>
    if p = 0 ∨ percScale < p then
      .error (.invalidCampaignParam "distribution_type" "percentage out of range")
    else if e ≤ s then .error (.invalidDistributionTimes s e)
    else
      match cliff with
      | some d =>
        if e - s ≤ d then
          .error (.invalidCampaignParam "distribution_type" "cliff too long")
        else .ok ()
      | none => .ok ()

/-- Fold a validator over a list, stopping at the first error. -/
def validateAll {α : Type} (f : α → Except ContractError Unit) :
    List α → Except ContractError Unit
  | [] => .ok ()
  | x :: rest =>
    match f x with
    | .error e => .error e
    | .ok _ => validateAll f rest

/-- Sum of the percentage atomics of all slots. -/
def sumPercentages : List DistributionType → Nat
  | [] => 0
  | d :: rest => slotPercentage d + sumPercentages rest

/-- Modelled from the spec: `validate_campaign_params` in `helpers.rs`
(absent from `src/`), §4.1 — non-empty bounded strings, positive reward,
future start, `start < end`, a non-empty slot list whose slots validate and
whose percentages sum to exactly one. -/
def validate_campaign_params (now : Nat) (p : CampaignParams) :
    Except ContractError Unit :=
  if p.name.isEmpty then .error (.invalidCampaignParam "name" "cannot be empty")
  else if p.description.isEmpty then
    .error (.invalidCampaignParam "description" "cannot be empty")
  else if p.ty.isEmpty then .error (.invalidCampaignParam "type" "cannot be empty")
  else if p.totalReward.amount = 0 then
    .error (.invalidCampaignParam "total_reward" "cannot be zero")
  else if p.startTime ≤ now then
    .error (.invalidCampaignParam "start_time" "cannot be in the past")
  else if p.endTime ≤ p.startTime then
    .error (.invalidCampaignParam "end_time" "cannot be before start_time")
  else if p.distributionType.isEmpty then
    .error (.invalidCampaignParam "distribution_type" "cannot be empty")
  else
    match validateAll validateSlot p.distributionType with
    | .error e => .error e
    | .ok _ =>
      if sumPercentages p.distributionType ≠ percScale then
        .error (.invalidCampaignParam "distribution_type" "percentages must sum to one")
      else .ok ()

/-- `create_campaign` from `commands.rs` (reached through `manage_campaign`):
only when no campaign exists; validate and store. -/
def create_campaign (st : ContractState) (now : Nat) (params : CampaignParams) :
    HandlerResult :=
  if st.campaign.isSome then .error (.campaignError "existing campaign")
  else
    match validate_campaign_params now params with
    | .error e => .error e
    | .ok _ => .ok ({ st with campaign := some (Campaign.from_params params) }, [])

/-- `close_campaign` from `commands.rs`: only on an open campaign; refund
the remaining reward-denom balance to the owner and stamp `closed`.  The
source unwraps the owner inside the refund branch; an absent owner there is
a host-level abort, modelled as an error. -/
def close_campaign (st : ContractState) (bal : String → Nat) (now : Nat) :
    HandlerResult :=
  match st.campaign with
  | none => .error (.campaignError "there's not an active campaign")
  | some c =>
    if c.closed.isSome then
      .error (.campaignError "campaign has already been closed")
    else
      let refund := bal c.totalReward.denom
      let msgsRes : Except ContractError (List BankMsgSend) :=
        if refund = 0 then .ok []
        else
          match st.owner with
          | none => .error .ownershipError
          | some o =>
            .ok [{ toAddress := o, amount := [{ denom := c.totalReward.denom, amount := refund }] }]
      match msgsRes with
      | .error e => .error e
      | .ok msgs =>
        .ok ({ st with campaign := some { c with closed := some now } }, msgs)

/-- The `CampaignAction` of `manage_campaign`. -/
inductive CampaignAction where
  | createCampaign (params : CampaignParams)
  | closeCampaign
deriving DecidableEq, Repr

/-- `manage_campaign` from `commands.rs`: authorized callers only, then
dispatch to create or close. -/
def manage_campaign (st : ContractState) (bal : String → Nat) (now : Nat)
    (sender : String) (action : CampaignAction) : HandlerResult :=
  if !is_authorized st sender then .error .unauthorized
  else
    match action with
    | .createCampaign params => create_campaign st now params
    | .closeCampaign => close_campaign st bal now

/-- The host's commit rule (§5): apply the handler's state only on success;
any `Err` rolls the transaction back, leaving the store untouched. -/
def commit (st : ContractState) : HandlerResult → ContractState
  | .ok r => r.1
  | .error _ => st

/-- A state on which `claim` reaches the post-save `ExceededMaxClaimAmount`
check and fails it: the stored claims of `"b"` contain a corrupt extra slot
entry, so the aggregated total (19) exceeds the allocation (10). -/
def stExceeded : ContractState :=
  { campaign := some
      { name := "c", description := "c", ty := "airdrop"
        totalReward := { denom := "uom", amount := 100 }
        claimed := { denom := "uom", amount := 0 }
        distributionType := [.lumpSum percScale 0]
        startTime := 0, endTime := 10, closed := none }
    allocations := [("b", 10)]
    claims := [("b", [(5, (9, 0))])]
    blacklist := []
    authorizedWallets := []
    owner := some "o" }

/-- A concrete state for the C8 witness: owner `"o"` (holding an
allocation), authorized operator `"w"`, empty blacklist. -/
def stOwnerW : ContractState :=
  { campaign := none
    allocations := [("o", 5)]
    claims := []
    blacklist := []
    authorizedWallets := ["w"]
    owner := some "o" }

/-- The denom is allowed for sweeping: either no campaign is stored, or it
differs from the campaign's reward denom. -/
def sweepableDenom (st : ContractState) (denom : String) : Prop :=
  match st.campaign with
  | some c => denom ≠ c.totalReward.denom
  | none => True

/-- A concrete state for the C7 witness: owner `"o"`, a campaign with
reward denom `"uom"`. -/
def stSweep : ContractState :=
  { campaign := some
      { name := "c", description := "c", ty := "airdrop"
        totalReward := { denom := "uom", amount := 100 }
        claimed := { denom := "uom", amount := 0 }
        distributionType := [.lumpSum percScale 0]
        startTime := 0, endTime := 10, closed := none }
    allocations := []
    claims := []
    blacklist := []
    authorizedWallets := []
    owner := some "o" }

/-- No campaign has started at `now` (either none stored or its start time
is in the future). -/
def campaignNotStarted (st : ContractState) (now : Nat) : Prop :=
  match st.campaign with
  | some c => has_started c now = false
  | none => True

/-- A concrete state for the C9 witness: owner `"o"`, no campaign, one
existing allocation for `"x"`. -/
def stAlloc : ContractState :=
  { campaign := none
    allocations := [("x", 1)]
    claims := []
    blacklist := []
    authorizedWallets := []
    owner := some "o" }

/-- A concrete family of states for the C5 witness. -/
def stPre (bl : List String) (allocs : List (String × Nat))
    (closed : Option Nat) : ContractState :=
  { campaign := some
      { name := "c", description := "c", ty := "airdrop"
        totalReward := { denom := "uom", amount := 100 }
        claimed := { denom := "uom", amount := 0 }
        distributionType := [.lumpSum percScale 10]
        startTime := 10, endTime := 100, closed := closed }
    allocations := allocs
    claims := []
    blacklist := bl
    authorizedWallets := ["w"]
    owner := some "o" }

/-- A concrete state for the C6 witness: allocation 50 for `"b"`, a single
finished lump-sum slot, so the maximum claimable is 50. -/
def stC6 : ContractState := stPre [] [("b", 50)] none

/-- A concrete state for the C1 witness: the campaign has started
(`start_time = 10 ≤ 50`) but its single linear-vesting slot only starts at
1000, so nothing has vested and nothing is done at `now = 50`. -/
def stC1 : ContractState :=
  { campaign := some
      { name := "c", description := "c", ty := "airdrop"
        totalReward := { denom := "uom", amount := 100000 }
        claimed := { denom := "uom", amount := 0 }
        distributionType := [.linearVesting percScale 1000 2000 none]
        startTime := 10, endTime := 172800, closed := none }
    allocations := [("b", 1000)]
    claims := []
    blacklist := []
    authorizedWallets := []
    owner := some "o" }

/-- Replace the stored campaign's `endTime` (a no-op when no campaign is
stored). -/
def setEndTime (st : ContractState) (e : Nat) : ContractState :=
  { st with campaign := st.campaign.map (fun c => { c with endTime := e }) }

/-- Normalize a handler result by forcing the returned campaign's `endTime`
to 0, so that results can be compared modulo `endTime`. -/
def scrubEnd : HandlerResult → HandlerResult
  | .ok r => .ok (setEndTime r.1 0, r.2)
  | .error err => .error err

/-- Keys of an association list are pairwise distinct. -/
def NodupKeys {κ α : Type} (l : List (κ × α)) : Prop :=
  (l.map Prod.fst).Nodup

/-- The outer claims map with well-formed keys, and well-formed slot keys in
every stored record. -/
def claimsWF (st : ContractState) : Prop :=
  NodupKeys st.claims ∧ ∀ e ∈ st.claims, NodupKeys e.2

/-- Total amount recorded in the claims store, summed over all addresses
and slots. -/
def claimsTotal : List (String × List (Nat × ClaimRecord)) → Nat
  | [] => 0
  | e :: rest => sumClaimAmounts e.2 + claimsTotal rest

/-- The state after the concrete successful claim used in the C3 witness. -/
def stC3R : ContractState :=
  { campaign := some
      { name := "c", description := "c", ty := "airdrop"
        totalReward := { denom := "uom", amount := 100 }
        claimed := { denom := "uom", amount := 50 }
        distributionType := [.lumpSum percScale 10]
        startTime := 10, endTime := 100, closed := none }
    allocations := [("b", 50)]
    claims := [("b", [(0, (50, 50))])]
    blacklist := []
    authorizedWallets := ["w"]
    owner := some "o" }

/-- Total new-claimable amount available on a list of slots. -/
def sumAvail (entries : List (Nat × Nat)) : List Nat → Nat
  | [] => 0
  | k :: rest => (mapGet entries k).getD 0 + sumAvail entries rest

/-! ## Association-list lemmas -/

theorem mapGet_mapRemove_ne {κ α : Type} [DecidableEq κ] (l : List (κ × α))
    (k k' : κ) (h : k' ≠ k) : mapGet (mapRemove l k) k' = mapGet l k' := by
  induction l with
  | nil => rfl
  | cons e rest ih =>
    by_cases he : e.1 = k
    · have hne : e.1 ≠ k' := fun hk' => h (hk' ▸ he ▸ rfl)
      have hstep : mapRemove (e :: rest) k = mapRemove rest k := by
        simp [mapRemove, List.filter_cons, he]
      rw [hstep, ih]
      simp [mapGet, hne]
    · have hstep : mapRemove (e :: rest) k = e :: mapRemove rest k := by
        simp [mapRemove, List.filter_cons, he]
      rw [hstep]
      by_cases h2 : e.1 = k' <;> simp [mapGet, h2, ih]

theorem mapGet_mapSave_self {κ α : Type} [DecidableEq κ] (l : List (κ × α))
    (k : κ) (v : α) : mapGet (mapSave l k v) k = some v := by
  simp [mapSave, mapGet]

theorem mapGet_mapSave_ne {κ α : Type} [DecidableEq κ] (l : List (κ × α))
    (k k' : κ) (v : α) (h : k' ≠ k) :
    mapGet (mapSave l k v) k' = mapGet l k' := by
  rw [mapSave, mapGet, if_neg (Ne.symm h)]
  exact mapGet_mapRemove_ne l k k' h

theorem mem_setSave_iff (l : List String) (k a : String) :
    a ∈ setSave l k ↔ a = k ∨ (a ∈ l ∧ a ≠ k) := by
  constructor
  · intro h
    rcases List.mem_cons.mp h with h1 | h1
    · exact Or.inl h1
    · simp only [setRemove, List.mem_filter, decide_not, Bool.not_eq_true',
        decide_eq_false_iff_not] at h1
      exact Or.inr h1
  · intro h
    rcases h with h1 | ⟨h1, h2⟩
    · exact h1 ▸ List.mem_cons_self _ _
    · refine List.mem_cons.mpr (Or.inr ?_)
      simp only [setRemove, List.mem_filter, decide_not, Bool.not_eq_true',
        decide_eq_false_iff_not]
      exact ⟨h1, h2⟩

theorem not_mem_setRemove (l : List String) (k : String) : k ∉ setRemove l k := by
  simp [setRemove, List.mem_filter]

theorem mem_setRemove_of_mem {l : List String} {k a : String} (h : a ∈ setRemove l k) :
    a ∈ l := by
  simp [setRemove, List.mem_filter] at h
  exact h.1

/-! ## C4 — atomicity of the mutation handlers -/

/-- Claim C4. Every mutation handler is atomic: whenever it returns an error,
the committed persistent state is unchanged.  In the source this is the
host's transaction rollback (§5: "the host rolls back on any `Err`"),
modelled by `commit`; the handlers themselves return a post-state only on
success.  In particular, a `claim` that fails the post-save
`ExceededMaxClaimAmount` check (performed after the `CAMPAIGN.save` and
`CLAIMS.save` calls in the source) leaves `CAMPAIGN` and `CLAIMS` as they
were (see the witness, which exercises exactly that path). -/
theorem handlers_atomic (st : ContractState) (bal : String → Nat) (now : Nat)
    (sender denom address oldAddress newAddress : String)
    (receiverOpt : Option String) (amountOpt : Option Nat)
    (allocations : List (String × Nat)) (addresses : List String)
    (flag : Bool) (action : CampaignAction) :
    (∀ e, claim st bal now sender receiverOpt amountOpt = .error e →
      commit st (claim st bal now sender receiverOpt amountOpt) = st)
    ∧ (∀ e, sweep st bal sender denom amountOpt = .error e →
      commit st (sweep st bal sender denom amountOpt) = st)
    ∧ (∀ e, add_allocations st now sender allocations = .error e →
      commit st (add_allocations st now sender allocations) = st)
    ∧ (∀ e, blacklist_address st sender address flag = .error e →
      commit st (blacklist_address st sender address flag) = st)
    ∧ (∀ e, remove_address st now sender address = .error e →
      commit st (remove_address st now sender address) = st)
    ∧ (∀ e, replace_address st sender oldAddress newAddress = .error e →
      commit st (replace_address st sender oldAddress newAddress) = st)
    ∧ (∀ e, manage_authorized_wallets st sender addresses flag = .error e →
      commit st (manage_authorized_wallets st sender addresses flag) = st)
    ∧ (∀ e, manage_campaign st bal now sender action = .error e →
      commit st (manage_campaign st bal now sender action) = st) := by
  refine ⟨?_, ?_, ?_, ?_, ?_, ?_, ?_, ?_⟩ <;>
    (intro e h; rw [h]; rfl)

/-- Witness for C4 at concrete inputs: `claim` on `stExceeded` fails with
`ExceededMaxClaimAmount` after the saves, and the committed state is
unchanged; the remaining handlers error on an unauthorized sender and also
leave the state unchanged. -/
theorem handlers_atomic_witness :
    claim stExceeded (fun _ => 100) 5 "b" none none = .error .exceededMaxClaimAmount
    ∧ commit stExceeded (claim stExceeded (fun _ => 100) 5 "b" none none) = stExceeded
    ∧ commit stExceeded (sweep stExceeded (fun _ => 100) "x" "uom" none) = stExceeded
    ∧ commit stExceeded (add_allocations stExceeded 5 "x" []) = stExceeded
    ∧ commit stExceeded (blacklist_address stExceeded "x" "b" true) = stExceeded
    ∧ commit stExceeded (remove_address stExceeded 5 "x" "b") = stExceeded
    ∧ commit stExceeded (replace_address stExceeded "x" "a" "b") = stExceeded
    ∧ commit stExceeded (manage_authorized_wallets stExceeded "x" ["a"] true) = stExceeded
    ∧ commit stExceeded (manage_campaign stExceeded (fun _ => 100) 5 "x" .closeCampaign) = stExceeded := by
  have h1 : claim stExceeded (fun _ => 100) 5 "b" none none = .error .exceededMaxClaimAmount := by
    rfl
  refine ⟨h1, ?_, ?_, ?_, ?_, ?_, ?_, ?_, ?_⟩
  · exact (handlers_atomic stExceeded (fun _ => 100) 5 "b" "uom" "b" "a" "b" none none
      [] ["a"] true .closeCampaign).1 .exceededMaxClaimAmount h1
  · exact (handlers_atomic stExceeded (fun _ => 100) 5 "x" "uom" "b" "a" "b" none none
      [] ["a"] true .closeCampaign).2.1 .ownershipError (by rfl)
  · exact (handlers_atomic stExceeded (fun _ => 100) 5 "x" "uom" "b" "a" "b" none none
      [] ["a"] true .closeCampaign).2.2.1 .unauthorized (by rfl)
  · exact (handlers_atomic stExceeded (fun _ => 100) 5 "x" "uom" "b" "a" "b" none none
      [] ["a"] true .closeCampaign).2.2.2.1 .unauthorized (by rfl)
  · exact (handlers_atomic stExceeded (fun _ => 100) 5 "x" "uom" "b" "a" "b" none none
      [] ["a"] true .closeCampaign).2.2.2.2.1 .unauthorized (by rfl)
  · exact (handlers_atomic stExceeded (fun _ => 100) 5 "x" "uom" "b" "a" "b" none none
      [] ["a"] true .closeCampaign).2.2.2.2.2.1 .unauthorized (by rfl)
  · exact (handlers_atomic stExceeded (fun _ => 100) 5 "x" "uom" "b" "a" "b" none none
      [] ["a"] true .closeCampaign).2.2.2.2.2.2.1 .ownershipError (by rfl)
  · exact (handlers_atomic stExceeded (fun _ => 100) 5 "x" "uom" "b" "a" "b" none none
      [] ["a"] true .closeCampaign).2.2.2.2.2.2.2 .unauthorized (by rfl)

/-! ## C8 — the owner can never be blacklisted -/

/-- Claim C8. `blacklist_address(owner, b)` is rejected with the structured
`CampaignError` "Cannot blacklist the campaign owner" for every authorized
caller (owner or operator); the owner never enters the blacklist through
`blacklist_address`; the handler never touches allocations (so any
allocation held by the owner survives the attempt); and blacklisting a
non-owner address succeeds for an authorized caller. -/
theorem blacklist_owner_protected (st : ContractState) (sender address o : String)
    (flag : Bool) :
    (is_authorized st sender = true → st.owner = some o →
      blacklist_address st sender o flag =
        .error (.campaignError "Cannot blacklist the campaign owner"))
    ∧ (st.owner = some o → o ∉ st.blacklist →
      o ∉ (commit st (blacklist_address st sender address flag)).blacklist)
    ∧ (commit st (blacklist_address st sender address flag)).allocations =
        st.allocations
    ∧ (is_authorized st sender = true → st.owner = some o → address ≠ o →
      blacklist_address st sender address flag =
        .ok ({ st with blacklist :=
                if flag then setSave st.blacklist address
                else setRemove st.blacklist address }, [])
      ∧ (flag = true →
          address ∈ (commit st (blacklist_address st sender address flag)).blacklist)) := by
  refine ⟨?_, ?_, ?_, ?_⟩
  · intro hauth how
    simp [blacklist_address, hauth, how]
  · intro how hnb
    by_cases hauth : is_authorized st sender = true
    · by_cases haddr : o = address
      · have hown : (match st.owner with
            | some o' => decide (o' = address)
            | none => false) = true := by
          rw [how]; simp [haddr]
        simp [blacklist_address, hauth, hown, commit]
        exact hnb
      · have hown : (match st.owner with
            | some o' => decide (o' = address)
            | none => false) = false := by
          rw [how]; exact decide_eq_false haddr
        cases flag
        · have hres : commit st (blacklist_address st sender address false) =
              { st with blacklist := setRemove st.blacklist address } := by
            simp [blacklist_address, hauth, hown, commit]
          rw [hres]
          intro hmem
          exact hnb (mem_setRemove_of_mem hmem)
        · have hres : commit st (blacklist_address st sender address true) =
              { st with blacklist := setSave st.blacklist address } := by
            simp [blacklist_address, hauth, hown, commit]
          rw [hres]
          intro hmem
          rcases (mem_setSave_iff st.blacklist address o).mp hmem with h | ⟨h1, _⟩
          · exact haddr h
          · exact hnb h1
    · simp only [Bool.not_eq_true] at hauth
      simp [blacklist_address, hauth, commit]
      exact hnb
  · by_cases hauth : is_authorized st sender = true
    · by_cases hown : (match st.owner with
        | some o' => decide (o' = address)
        | none => false) = true
      · simp [blacklist_address, hauth, hown, commit]
      · simp only [Bool.not_eq_true] at hown
        cases flag <;> simp [blacklist_address, hauth, hown, commit]
    · simp only [Bool.not_eq_true] at hauth
      simp [blacklist_address, hauth, commit]
  · intro hauth how hne
    have hown : (match st.owner with
        | some o' => decide (o' = address)
        | none => false) = false := by
      rw [how]; exact decide_eq_false (Ne.symm hne)
    constructor
    · cases flag <;> simp [blacklist_address, hauth, hown]
    · intro hf
      subst hf
      have hres : commit st (blacklist_address st sender address true) =
          { st with blacklist := setSave st.blacklist address } := by
        simp [blacklist_address, hauth, hown, commit]
      rw [hres]
      exact (mem_setSave_iff st.blacklist address address).mpr (Or.inl rfl)

/-- Witness for C8: the operator `"w"` cannot blacklist the owner `"o"`,
the owner stays off the blacklist, the owner's allocation survives, and
`"w"` can blacklist the ordinary address `"u"`. -/
theorem blacklist_owner_protected_witness :
    blacklist_address stOwnerW "w" "o" true =
      .error (.campaignError "Cannot blacklist the campaign owner")
    ∧ "o" ∉ (commit stOwnerW (blacklist_address stOwnerW "w" "o" true)).blacklist
    ∧ (commit stOwnerW (blacklist_address stOwnerW "w" "o" true)).allocations =
        stOwnerW.allocations
    ∧ blacklist_address stOwnerW "w" "u" true =
        .ok ({ stOwnerW with blacklist := setSave stOwnerW.blacklist "u" }, []) := by
  have t := blacklist_owner_protected stOwnerW "w" "o" "o" true
  have t2 := blacklist_owner_protected stOwnerW "w" "u" "o" true
  exact ⟨t.1 (by rfl) rfl, t.2.1 rfl (by intro h; exact absurd h (List.not_mem_nil "o")),
    t.2.2.1, (t2.2.2.2 (by rfl) rfl (by decide)).1⟩

/-! ## C7 — sweep -/

theorem sweepableDenom_match {st : ContractState} {denom : String}
    (h : sweepableDenom st denom) :
    (match st.campaign with
      | some c => decide (denom = c.totalReward.denom)
      | none => false) = false := by
  unfold sweepableDenom at h
  cases hc : st.campaign with
  | none => simp
  | some c =>
    rw [hc] at h
    simp [decide_eq_false h]

/-- Claim C7. `sweep` succeeds only for the owner; it fails with
`CampaignError` when the requested denom equals the campaign's reward denom
while a campaign exists (closed or not — the check does not look at
`closed`); it fails when the requested amount exceeds the contract balance;
it fails when the amount to sweep (the full balance when no amount is
given) is zero; otherwise it transfers the swept amount to the owner.  With
no campaign stored, `sweepableDenom` holds for every denom, so any denom is
sweepable. -/
theorem sweep_spec (st : ContractState) (bal : String → Nat) (sender denom : String)
    (amountOpt : Option Nat) :
    (∀ stR msgs, sweep st bal sender denom amountOpt = .ok (stR, msgs) →
      st.owner = some sender)
    ∧ (∀ c, st.owner = some sender → st.campaign = some c →
      denom = c.totalReward.denom →
      sweep st bal sender denom amountOpt =
        .error (.campaignError "Cannot sweep reward denom. Use CloseCampaign instead"))
    ∧ (∀ amt, st.owner = some sender → sweepableDenom st denom →
      amountOpt = some amt → bal denom < amt →
      sweep st bal sender denom amountOpt =
        .error (.invalidCampaignParam "amount" "Requested amount exceeds available balance"))
    ∧ (∀ amt, st.owner = some sender → sweepableDenom st denom →
      amountOpt = some amt → amt ≤ bal denom → amt = 0 →
      sweep st bal sender denom amountOpt = .error (.campaignError "No tokens to sweep"))
    ∧ (st.owner = some sender → sweepableDenom st denom → amountOpt = none →
      bal denom = 0 →
      sweep st bal sender denom amountOpt = .error (.campaignError "No tokens to sweep"))
    ∧ (∀ amt, st.owner = some sender → sweepableDenom st denom →
      amountOpt = some amt → amt ≤ bal denom → 0 < amt →
      sweep st bal sender denom amountOpt =
        .ok (st, [{ toAddress := sender, amount := [{ denom := denom, amount := amt }] }]))
    ∧ (st.owner = some sender → sweepableDenom st denom → amountOpt = none →
      0 < bal denom →
      sweep st bal sender denom amountOpt =
        .ok (st, [{ toAddress := sender, amount := [{ denom := denom, amount := bal denom }] }])) := by
  refine ⟨?_, ?_, ?_, ?_, ?_, ?_, ?_⟩
  · intro stR msgs h
    by_cases hown : st.owner = some sender
    · exact hown
    · exfalso
      cases ho : st.owner with
      | none => rw [sweep, ho] at h; simp at h
      | some o =>
        have hso : sender ≠ o := fun he => hown (by rw [ho, he])
        rw [sweep, ho] at h
        simp [hso] at h
  · intro c how hc hd
    have hmatch : (match st.campaign with
        | some c' => decide (denom = c'.totalReward.denom)
        | none => false) = true := by
      rw [hc]; simp [hd]
    simp [sweep, how, hmatch]
  · intro amt how hsw hamt hlt
    simp [sweep, how, sweepableDenom_match hsw, hamt, hlt]
  · intro amt how hsw hamt hle hzero
    subst hzero
    simp [sweep, how, sweepableDenom_match hsw, hamt, Nat.not_lt.mpr hle]
  · intro how hsw hamt hzero
    simp [sweep, how, sweepableDenom_match hsw, hamt, hzero]
  · intro amt how hsw hamt hle hpos
    simp [sweep, how, sweepableDenom_match hsw, hamt, Nat.not_lt.mpr hle,
      Nat.pos_iff_ne_zero.mp hpos]
  · intro how hsw hamt hpos
    simp [sweep, how, sweepableDenom_match hsw, hamt, Nat.pos_iff_ne_zero.mp hpos]

/-- Witness for C7 at concrete inputs: the reward denom is rejected, an
over-balance request is rejected, a zero sweep is rejected, and a full
sweep of a non-reward denom transfers the whole balance to the owner. -/
theorem sweep_spec_witness :
    sweep stSweep (fun d => if d = "uusdc" then 50 else 0) "o" "uom" none =
      .error (.campaignError "Cannot sweep reward denom. Use CloseCampaign instead")
    ∧ sweep stSweep (fun d => if d = "uusdc" then 50 else 0) "o" "uusdc" (some 60) =
      .error (.invalidCampaignParam "amount" "Requested amount exceeds available balance")
    ∧ sweep stSweep (fun d => if d = "uusdc" then 50 else 0) "o" "utest" none =
      .error (.campaignError "No tokens to sweep")
    ∧ sweep stSweep (fun d => if d = "uusdc" then 50 else 0) "o" "uusdc" none =
      .ok (stSweep, [{ toAddress := "o", amount := [{ denom := "uusdc", amount := 50 }] }]) := by
  have t1 := sweep_spec stSweep (fun d => if d = "uusdc" then 50 else 0) "o" "uom" none
  have t2 := sweep_spec stSweep (fun d => if d = "uusdc" then 50 else 0) "o" "uusdc" (some 60)
  have t3 := sweep_spec stSweep (fun d => if d = "uusdc" then 50 else 0) "o" "utest" none
  have t4 := sweep_spec stSweep (fun d => if d = "uusdc" then 50 else 0) "o" "uusdc" none
  refine ⟨?_, ?_, ?_, ?_⟩
  · exact t1.2.1 _ rfl rfl rfl
  · exact t2.2.2.1 60 rfl (by intro h; revert h; decide) rfl (by decide)
  · exact t3.2.2.2.2.1 rfl (by intro h; revert h; decide) rfl (by decide)
  · exact t4.2.2.2.2.2.2 rfl (by intro h; revert h; decide) rfl (by decide)

/-! ## C9 — add_allocations -/

theorem campaignNotStarted_match {st : ContractState} {now : Nat}
    (h : campaignNotStarted st now) :
    (match st.campaign with
      | some c => has_started c now
      | none => false) = false := by
  unfold campaignNotStarted at h
  cases hc : st.campaign with
  | none => simp
  | some c => rw [hc] at h; simp [h]

theorem addAllocLoop_error_of_exists (st : ContractState)
    (allocs : List (String × Nat))
    (h : ∃ p ∈ allocs, (mapGet st.allocations p.1).isSome = true) :
    ∃ a, addAllocLoop st allocs = .error (.allocationAlreadyExists a) := by
  induction allocs generalizing st with
  | nil => obtain ⟨p, hp, _⟩ := h; simp at hp
  | cons e rest ih =>
    obtain ⟨addr, amt⟩ := e
    obtain ⟨p, hp, hsome⟩ := h
    by_cases hh : (mapGet st.allocations addr).isSome = true
    · exact ⟨addr, by simp [addAllocLoop, hh]⟩
    · rcases List.mem_cons.mp hp with he | ht
      · rw [he] at hsome; exact absurd hsome hh
      · have hex : ∃ q ∈ rest,
            (mapGet (mapSave st.allocations addr amt) q.1).isSome = true := by
          refine ⟨p, ht, ?_⟩
          by_cases hpa : p.1 = addr
          · rw [hpa, mapGet_mapSave_self]; rfl
          · rw [mapGet_mapSave_ne _ _ _ _ hpa]; exact hsome
        obtain ⟨a, ha⟩ :=
          ih { st with allocations := mapSave st.allocations addr amt } hex
        refine ⟨a, ?_⟩
        rw [addAllocLoop]
        simp only [Bool.not_eq_true] at hh
        rw [hh]
        simpa using ha

theorem addAllocLoop_ok (st : ContractState) (allocs : List (String × Nat))
    (hnodup : (allocs.map Prod.fst).Nodup)
    (hnone : ∀ p ∈ allocs, mapGet st.allocations p.1 = none) :
    ∃ st', addAllocLoop st allocs = .ok (st', [])
      ∧ (∀ p ∈ allocs, mapGet st'.allocations p.1 = some p.2)
      ∧ (∀ a, (∀ p ∈ allocs, p.1 ≠ a) →
          mapGet st'.allocations a = mapGet st.allocations a) := by
  induction allocs generalizing st with
  | nil =>
    exact ⟨st, rfl, by intro p hp; simp at hp, fun a _ => rfl⟩
  | cons e rest ih =>
    obtain ⟨addr, amt⟩ := e
    have hh : mapGet st.allocations addr = none := hnone (addr, amt) (by simp)
    have hknodup := hnodup
    rw [List.map_cons, List.nodup_cons] at hknodup
    obtain ⟨haddr_notin, hrest_nodup⟩ := hknodup
    have hnone' : ∀ p ∈ rest,
        mapGet (mapSave st.allocations addr amt) p.1 = none := by
      intro p hp
      have hpa : p.1 ≠ addr := by
        intro he
        exact haddr_notin (he ▸ List.mem_map.mpr ⟨p, hp, rfl⟩)
      rw [mapGet_mapSave_ne _ _ _ _ hpa]
      exact hnone p (List.mem_cons.mpr (Or.inr hp))
    obtain ⟨st', hloop, hget, hpres⟩ :=
      ih { st with allocations := mapSave st.allocations addr amt }
        hrest_nodup hnone'
    refine ⟨st', ?_, ?_, ?_⟩
    · rw [addAllocLoop, hh]
      simpa using hloop
    · intro p hp
      rcases List.mem_cons.mp hp with he | ht
      · have hrestne : ∀ q ∈ rest, q.1 ≠ addr := by
          intro q hq he'
          exact haddr_notin (he' ▸ List.mem_map.mpr ⟨q, hq, rfl⟩)
        have := hpres addr hrestne
        rw [he]
        simp only [this]
        exact mapGet_mapSave_self _ _ _
      · exact hget p ht
    · intro a hne
      have h1 := hpres a (fun q hq => hne q (List.mem_cons.mpr (Or.inr hq)))
      rw [h1]
      exact mapGet_mapSave_ne _ _ _ _ (Ne.symm (hne (addr, amt) (by simp)))

/-- Claim C9. `add_allocations` fails with `BatchSizeLimitExceeded` when the
batch exceeds 3000 entries; fails with `CampaignError` when a campaign
exists and has started; fails with `AllocationAlreadyExists` when any
address in the batch already has an allocation (which also catches
duplicates within the batch, since entries are stored as the loop runs);
and succeeds, storing every pair, when no campaign exists yet or the
campaign has not started. -/
theorem add_allocations_spec (st : ContractState) (now : Nat) (sender : String)
    (allocs : List (String × Nat)) (hauth : is_authorized st sender = true) :
    (MAX_ALLOCATION_BATCH_SIZE < allocs.length →
      add_allocations st now sender allocs =
        .error (.batchSizeLimitExceeded allocs.length MAX_ALLOCATION_BATCH_SIZE))
    ∧ (∀ c, allocs.length ≤ MAX_ALLOCATION_BATCH_SIZE → st.campaign = some c →
      has_started c now = true →
      add_allocations st now sender allocs =
        .error (.campaignError "cannot upload allocations after campaign has started"))
    ∧ (allocs.length ≤ MAX_ALLOCATION_BATCH_SIZE → campaignNotStarted st now →
      (∃ p ∈ allocs, (mapGet st.allocations p.1).isSome = true) →
      ∃ a, add_allocations st now sender allocs =
        .error (.allocationAlreadyExists a))
    ∧ (allocs.length ≤ MAX_ALLOCATION_BATCH_SIZE → campaignNotStarted st now →
      (allocs.map Prod.fst).Nodup →
      (∀ p ∈ allocs, mapGet st.allocations p.1 = none) →
      ∃ st', add_allocations st now sender allocs = .ok (st', [])
        ∧ ∀ p ∈ allocs, mapGet st'.allocations p.1 = some p.2) := by
  refine ⟨?_, ?_, ?_, ?_⟩
  · intro hsize
    simp [add_allocations, hauth, hsize]
  · intro c hsize hc hs
    have hmatch : (match st.campaign with
        | some c' => has_started c' now
        | none => false) = true := by rw [hc]; exact hs
    simp [add_allocations, hauth, Nat.not_lt.mpr hsize, hmatch]
  · intro hsize hns hex
    obtain ⟨a, ha⟩ := addAllocLoop_error_of_exists st allocs hex
    refine ⟨a, ?_⟩
    simp [add_allocations, hauth, Nat.not_lt.mpr hsize, campaignNotStarted_match hns]
    exact ha
  · intro hsize hns hnodup hnone
    obtain ⟨st', hloop, hget, _⟩ := addAllocLoop_ok st allocs hnodup hnone
    refine ⟨st', ?_, hget⟩
    simp [add_allocations, hauth, Nat.not_lt.mpr hsize, campaignNotStarted_match hns]
    exact hloop

/-- Witness for C9 at concrete inputs: an oversized batch is rejected, a
batch containing the pre-existing address `"x"` is rejected, and a fresh
batch is stored in full; a started-campaign state rejects any batch. -/
theorem add_allocations_spec_witness :
    add_allocations stAlloc 5 "o" (List.replicate 3001 ("a", 1)) =
      .error (.batchSizeLimitExceeded (List.replicate 3001 (("a", 1) : String × Nat)).length
        MAX_ALLOCATION_BATCH_SIZE)
    ∧ add_allocations stSweep 5 "o" [("y", 2)] =
      .error (.campaignError "cannot upload allocations after campaign has started")
    ∧ (∃ a, add_allocations stAlloc 5 "o" [("x", 2)] =
        .error (.allocationAlreadyExists a))
    ∧ (∃ st', add_allocations stAlloc 5 "o" [("y", 2), ("z", 3)] = .ok (st', [])
        ∧ ∀ p ∈ [(("y", 2) : String × Nat), ("z", 3)],
            mapGet st'.allocations p.1 = some p.2) := by
  refine ⟨?_, ?_, ?_, ?_⟩
  · exact (add_allocations_spec stAlloc 5 "o" _ (by rfl)).1
      (by rw [List.length_replicate]; decide)
  · exact (add_allocations_spec stSweep 5 "o" [("y", 2)] (by rfl)).2.1 _
      (by decide) rfl (by rfl)
  · exact (add_allocations_spec stAlloc 5 "o" [("x", 2)] (by rfl)).2.2.1
      (by decide) (by trivial) ⟨("x", 2), by simp, by rfl⟩
  · exact (add_allocations_spec stAlloc 5 "o" [("y", 2), ("z", 3)] (by rfl)).2.2.2
      (by decide) (by trivial) (by decide) (by decide)

/-! ## C5 — claim prerequisite errors -/

set_option maxRecDepth 8000 in
/-- Claim C5. `claim` fails with `CampaignError` when no campaign exists,
when `now` is before `campaign.start_time`, or when the campaign is closed;
with `Unauthorized` when the sender is neither the owner nor an authorized
operator nor the receiver; with `AddressBlacklisted` when the receiver is
blacklisted (also for an authorized sender claiming on behalf); and with
`NoAllocationFound` when the receiver has no allocation. -/
theorem claim_prerequisites (st : ContractState) (bal : String → Nat) (now : Nat)
    (sender : String) (receiverOpt : Option String) (amountOpt : Option Nat) :
    (st.campaign = none →
      claim st bal now sender receiverOpt amountOpt =
        .error (.campaignError "there's not an active campaign"))
    ∧ (∀ c, st.campaign = some c → now < c.startTime →
      claim st bal now sender receiverOpt amountOpt =
        .error (.campaignError "not started"))
    ∧ (∀ c t, st.campaign = some c → has_started c now = true → c.closed = some t →
      claim st bal now sender receiverOpt amountOpt =
        .error (.campaignError "has been closed, cannot claim"))
    ∧ (∀ c, st.campaign = some c → has_started c now = true → c.closed = none →
      is_authorized st sender = false → sender ≠ receiverOpt.getD sender →
      claim st bal now sender receiverOpt amountOpt = .error .unauthorized)
    ∧ (∀ c, st.campaign = some c → has_started c now = true → c.closed = none →
      (is_authorized st sender = true ∨ sender = receiverOpt.getD sender) →
      is_blacklisted st (receiverOpt.getD sender) = true →
      claim st bal now sender receiverOpt amountOpt = .error .addressBlacklisted)
    ∧ (∀ c, st.campaign = some c → has_started c now = true → c.closed = none →
      (is_authorized st sender = true ∨ sender = receiverOpt.getD sender) →
      is_blacklisted st (receiverOpt.getD sender) = false →
      get_allocation st (receiverOpt.getD sender) = none →
      claim st bal now sender receiverOpt amountOpt =
        .error (.noAllocationFound (receiverOpt.getD sender))) := by
  refine ⟨?_, ?_, ?_, ?_, ?_, ?_⟩
  · intro hc
    simp [claim, hc]
  · intro c hc hlt
    have hs : has_started c now = false := by
      simp [has_started, Nat.not_le.mpr hlt]
    simp [claim, hc, hs]
  · intro c t hc hs hcl
    simp [claim, hc, hs, hcl]
  · intro c hc hs hcl hauth hne
    simp [claim, hc, hs, hcl, hauth, hne]
  · intro c hc hs hcl hperm hbl
    simp [claim, hc, hs, hcl, hbl]
    intro hf
    rcases hperm with h | h
    · simp [h] at hf
    · exact h
  · intro c hc hs hcl hperm hbl hga
    simp [claim, hc, hs, hcl, hbl, hga]
    intro hf
    rcases hperm with h | h
    · simp [h] at hf
    · exact h

/-- Witness for C5 at concrete inputs: each prerequisite failure is
exercised — no campaign, not started, closed, unauthorized third-party
sender, blacklisted receiver for an authorized sender, and missing
allocation. -/
theorem claim_prerequisites_witness :
    claim stOwnerW (fun _ => 100) 50 "b" none none =
      .error (.campaignError "there's not an active campaign")
    ∧ claim (stPre [] [] none) (fun _ => 100) 5 "b" none none =
      .error (.campaignError "not started")
    ∧ claim (stPre [] [] (some 40)) (fun _ => 100) 50 "b" none none =
      .error (.campaignError "has been closed, cannot claim")
    ∧ claim (stPre [] [] none) (fun _ => 100) 50 "b" (some "r") none =
      .error .unauthorized
    ∧ claim (stPre ["r"] [] none) (fun _ => 100) 50 "w" (some "r") none =
      .error .addressBlacklisted
    ∧ claim (stPre [] [] none) (fun _ => 100) 50 "b" none none =
      .error (.noAllocationFound "b") := by
  refine ⟨?_, ?_, ?_, ?_, ?_, ?_⟩
  · exact (claim_prerequisites stOwnerW (fun _ => 100) 50 "b" none none).1 rfl
  · exact (claim_prerequisites (stPre [] [] none) (fun _ => 100) 5 "b" none none).2.1
      _ rfl (by decide)
  · exact (claim_prerequisites (stPre [] [] (some 40)) (fun _ => 100) 50 "b" none
      none).2.2.1 _ 40 rfl (by rfl) rfl
  · exact (claim_prerequisites (stPre [] [] none) (fun _ => 100) 50 "b" (some "r")
      none).2.2.2.1 _ rfl (by rfl) rfl (by rfl) (by decide)
  · exact (claim_prerequisites (stPre ["r"] [] none) (fun _ => 100) 50 "w" (some "r")
      none).2.2.2.2.1 _ rfl (by rfl) rfl (Or.inl (by rfl)) (by rfl)
  · exact (claim_prerequisites (stPre [] [] none) (fun _ => 100) 50 "b" none
      none).2.2.2.2.2 _ rfl (by rfl) rfl (Or.inr rfl) (by rfl) (by rfl)

/-! ## C6 — resolution of the claim amount and the solvency check -/

theorem maxClaimable_def (dist : List DistributionType) (A : Nat)
    (prev : List (Nat × ClaimRecord)) (now : Nat) :
    maxClaimable dist A prev now = sumVals (newClaimEntries dist A prev now) := rfl

/-- Inversion of a successful `claimTail`: the transfer is a single
`BankMsg::Send` of the resolved amount, which is positive and within the
bank balance. -/
theorem claimTail_ok_msgs {st : ContractState} {c : Campaign}
    {receiver : String} {A : Nat} {prev : List (Nat × ClaimRecord)}
    {entries : List (Nat × Nat)} {actual now : Nat} {bal : String → Nat}
    {stR : ContractState} {msgs : List BankMsgSend}
    (h : claimTail st c receiver A prev entries actual now bal = .ok (stR, msgs)) :
    msgs = [{ toAddress := receiver,
              amount := [{ denom := c.totalReward.denom, amount := actual }] }]
    ∧ 0 < actual ∧ actual ≤ bal c.totalReward.denom := by
  simp only [claimTail] at h
  by_cases h0 : actual = 0
  · simp [h0] at h
  by_cases h1 : bal c.totalReward.denom < actual
  · simp [h0, h1] at h
  by_cases h2 : (distribute_claim c.distributionType entries actual now).1 = 0
  · cases hca : checked_add c.claimed.amount actual with
    | none => simp [h0, h1, h2, hca] at h
    | some nc =>
      by_cases h3 : A < sumClaimAmounts
          (aggregate_claims prev (distribute_claim c.distributionType entries actual now).2)
      · simp [h0, h1, h2, hca, h3] at h
      · simp only [h0, h1, h2, hca, h3, if_neg, if_pos, ite_false, ite_true,
          ne_eq, not_false_iff, not_true, if_false, if_true] at h
        simp [h0, h1, h2, hca, h3, Prod.mk.injEq] at h
        exact ⟨h.2.symm, Nat.pos_of_ne_zero h0, Nat.not_lt.mp h1⟩
  · simp [h0, h1, h2] at h

set_option maxRecDepth 8000 in
/-- With all prerequisites satisfied, `claim` reduces to the
requested-amount resolution of the source followed by `claimTail`. -/
theorem claim_eq_claimTail {st : ContractState} {bal : String → Nat} {now : Nat}
    {sender : String} {receiverOpt : Option String} {amountOpt : Option Nat}
    {c : Campaign} {A : Nat}
    (hc : st.campaign = some c) (hs : has_started c now = true)
    (hcl : c.closed = none)
    (hperm : is_authorized st sender = true ∨ sender = receiverOpt.getD sender)
    (hbl : is_blacklisted st (receiverOpt.getD sender) = false)
    (hga : get_allocation st (receiverOpt.getD sender) = some A) :
    claim st bal now sender receiverOpt amountOpt =
      (let receiver := receiverOpt.getD sender
       let prev := get_claims_for_address st receiver
       let entries := newClaimEntries c.distributionType A prev now
       match amountOpt with
       | some requested =>
         if requested = 0 then
           .error (.invalidClaimAmount "amount must be greater than zero")
         else if sumVals entries < requested then
           .error (.invalidClaimAmount
             "requested amount exceeds available claimable amount")
         else claimTail st c receiver A prev entries requested now bal
       | none => claimTail st c receiver A prev entries (sumVals entries) now bal) := by
  have hcond : (is_authorized st sender
      || decide (sender = receiverOpt.getD sender)) = true := by
    rcases hperm with h | h
    · rw [h]; rfl
    · rw [decide_eq_true h, Bool.or_true]
  rw [claim, hc]
  simp only [hs, Bool.not_true, Bool.false_eq_true, if_false, hcl,
    Option.isSome_none, hcond, hbl, hga]

set_option maxRecDepth 8000 in
/-- Claim C6. With the prerequisites satisfied and `M` the maximum claimable
amount: an explicit request of `0` or of more than `M` fails with
`InvalidClaimAmount`; a valid request `0 < r ≤ M` in excess of the contract's
bank balance in the reward denom fails the solvency check, as does an
implicit claim of `M`; an implicit claim of `M = 0` fails with
`NothingToClaim`; and every successful claim transfers a single amount that
is positive, within the bank balance, equal to the request when one was
given and equal to `M` otherwise. -/
theorem claim_amount_resolution (st : ContractState) (bal : String → Nat)
    (now : Nat) (sender : String) (receiverOpt : Option String)
    (amountOpt : Option Nat) (c : Campaign) (A : Nat)
    (hc : st.campaign = some c) (hs : has_started c now = true)
    (hcl : c.closed = none)
    (hperm : is_authorized st sender = true ∨ sender = receiverOpt.getD sender)
    (hbl : is_blacklisted st (receiverOpt.getD sender) = false)
    (hga : get_allocation st (receiverOpt.getD sender) = some A) :
    (amountOpt = some 0 →
      claim st bal now sender receiverOpt amountOpt =
        .error (.invalidClaimAmount "amount must be greater than zero"))
    ∧ (∀ r, amountOpt = some r →
      maxClaimable c.distributionType A
        (get_claims_for_address st (receiverOpt.getD sender)) now < r →
      claim st bal now sender receiverOpt amountOpt =
        .error (.invalidClaimAmount
          "requested amount exceeds available claimable amount"))
    ∧ (∀ r, amountOpt = some r → 0 < r →
      r ≤ maxClaimable c.distributionType A
        (get_claims_for_address st (receiverOpt.getD sender)) now →
      bal c.totalReward.denom < r →
      claim st bal now sender receiverOpt amountOpt =
        .error (.campaignError "no funds available to claim"))
    ∧ (amountOpt = none →
      0 < maxClaimable c.distributionType A
        (get_claims_for_address st (receiverOpt.getD sender)) now →
      bal c.totalReward.denom < maxClaimable c.distributionType A
        (get_claims_for_address st (receiverOpt.getD sender)) now →
      claim st bal now sender receiverOpt amountOpt =
        .error (.campaignError "no funds available to claim"))
    ∧ (amountOpt = none →
      maxClaimable c.distributionType A
        (get_claims_for_address st (receiverOpt.getD sender)) now = 0 →
      claim st bal now sender receiverOpt amountOpt = .error .nothingToClaim)
    ∧ (∀ stR msgs, claim st bal now sender receiverOpt amountOpt = .ok (stR, msgs) →
      ∃ a, msgs = [{ toAddress := receiverOpt.getD sender,
                     amount := [{ denom := c.totalReward.denom, amount := a }] }]
        ∧ 0 < a ∧ a ≤ bal c.totalReward.denom
        ∧ (amountOpt = none →
            a = maxClaimable c.distributionType A
              (get_claims_for_address st (receiverOpt.getD sender)) now)
        ∧ (∀ r, amountOpt = some r →
            a = r ∧ r ≤ maxClaimable c.distributionType A
              (get_claims_for_address st (receiverOpt.getD sender)) now)) := by
  have hred := @claim_eq_claimTail st bal now sender receiverOpt amountOpt c A
    hc hs hcl hperm hbl hga
  rw [maxClaimable_def]
  refine ⟨?_, ?_, ?_, ?_, ?_, ?_⟩
  · intro ha
    subst ha
    simp [hred]
  · intro r ha hlt
    subst ha
    have hr0 : r ≠ 0 := by
      intro h0; rw [h0] at hlt; exact Nat.not_lt_zero _ hlt
    simp [hred, hr0, hlt]
  · intro r ha hpos hle hbal
    subst ha
    simp [hred, Nat.pos_iff_ne_zero.mp hpos, Nat.not_lt.mpr hle, claimTail,
      Nat.pos_iff_ne_zero.mp hpos, hbal]
  · intro ha hpos hbal
    subst ha
    simp [hred, claimTail, Nat.pos_iff_ne_zero.mp hpos, hbal]
  · intro ha hzero
    subst ha
    simp [hred, claimTail, hzero]
  · intro stR msgs hok
    rw [hred] at hok
    cases amountOpt with
    | none =>
      obtain ⟨hm, hpos, hle⟩ := claimTail_ok_msgs hok
      exact ⟨_, hm, hpos, hle, fun _ => rfl, fun r hr => Option.noConfusion hr⟩
    | some r =>
      by_cases hr0 : r = 0
      · rw [hr0] at hok; simp at hok
      · by_cases hrM : sumVals (newClaimEntries c.distributionType A
            (get_claims_for_address st (receiverOpt.getD sender)) now) < r
        · simp [hr0, hrM] at hok
        · simp only [hr0, hrM, if_false] at hok
          obtain ⟨hm, hpos, hle⟩ := claimTail_ok_msgs hok
          have hfin : ∀ r', some r = some r' →
              r = r' ∧ r' ≤ sumVals (newClaimEntries c.distributionType A
                (get_claims_for_address st (receiverOpt.getD sender)) now) := by
            intro r' hr'
            injection hr' with he
            subst he
            exact ⟨rfl, Nat.not_lt.mp hrM⟩
          exact ⟨r, hm, hpos, hle, fun h => Option.noConfusion h, hfin⟩

/-- Witness for C6 at concrete inputs: requested 0 and requested 60 (> 50)
are rejected; requested 40 with a bank balance of 10 fails the solvency
check; and the implicit claim with balance 100 transfers an amount
satisfying the success clause. -/
theorem claim_amount_resolution_witness :
    claim stC6 (fun _ => 100) 50 "b" none (some 0) =
      .error (.invalidClaimAmount "amount must be greater than zero")
    ∧ claim stC6 (fun _ => 100) 50 "b" none (some 60) =
      .error (.invalidClaimAmount "requested amount exceeds available claimable amount")
    ∧ claim stC6 (fun _ => 10) 50 "b" none (some 40) =
      .error (.campaignError "no funds available to claim")
    ∧ ∃ a, [{ toAddress := "b",
              amount := [{ denom := "uom", amount := a }] }] =
            [({ toAddress := "b",
                amount := [{ denom := "uom", amount := a }] } : BankMsgSend)]
        ∧ 0 < a := by
  refine ⟨?_, ?_, ?_, ?_⟩
  · exact (claim_amount_resolution stC6 (fun _ => 100) 50 "b" none (some 0) _ 50
      rfl (by rfl) rfl (Or.inr rfl) (by rfl) (by rfl)).1 rfl
  · exact (claim_amount_resolution stC6 (fun _ => 100) 50 "b" none (some 60) _ 50
      rfl (by rfl) rfl (Or.inr rfl) (by rfl) (by rfl)).2.1 60 rfl (by decide)
  · exact (claim_amount_resolution stC6 (fun _ => 10) 50 "b" none (some 40) _ 50
      rfl (by rfl) rfl (Or.inr rfl) (by rfl) (by rfl)).2.2.1 40 rfl (by decide)
      (by decide) (by decide)
  · obtain ⟨a, hm, hpos, -⟩ :=
      (claim_amount_resolution stC6 (fun _ => 100) 50 "b" none none _ 50
        rfl (by rfl) rfl (Or.inr rfl) (by rfl) (by rfl)).2.2.2.2.2 _ _ (by rfl)
    exact ⟨a, rfl, hpos⟩

/-! ## C1 — nothing to claim before any vesting, compensation reserved -/

theorem rawEntriesFrom_zero {A now : Nat} {prev : List (Nat × ClaimRecord)}
    {dist : List DistributionType}
    (hvest : ∀ d ∈ dist, slotVested A now d = 0) :
    ∀ k, ∀ kv ∈ rawEntriesFrom A now prev k dist, kv.2 = 0 := by
  induction dist with
  | nil => intro k kv hkv; simp [rawEntriesFrom] at hkv
  | cons d rest ih =>
    intro k kv hkv
    rw [rawEntriesFrom] at hkv
    rcases List.mem_cons.mp hkv with he | ht
    · rw [he]
      simp [hvest d (by simp)]
    · exact ih (fun d' hd' => hvest d' (List.mem_cons.mpr (Or.inr hd'))) (k + 1) kv ht

theorem compDelta_not_all_done {A now : Nat} {dist : List DistributionType}
    (h : ∃ d ∈ dist, slotDone now d = false) :
    compDelta A now dist = 0 := by
  obtain ⟨d, hd, hdf⟩ := h
  have hall : dist.all (slotDone now) = false :=
    List.all_eq_false.mpr ⟨d, hd, by simp [hdf]⟩
  simp [compDelta, hall]

theorem newClaimEntries_eq_nil {dist : List DistributionType} {A : Nat}
    {prev : List (Nat × ClaimRecord)} {now : Nat}
    (hvest : ∀ d ∈ dist, slotVested A now d = 0)
    (hnotdone : ∀ d ∈ dist, slotDone now d = false) :
    newClaimEntries dist A prev now = [] := by
  cases dist with
  | nil => rfl
  | cons d0 rest =>
    have hcomp : compDelta A now (d0 :: rest) = 0 :=
      compDelta_not_all_done ⟨d0, by simp, hnotdone d0 (by simp)⟩
    unfold newClaimEntries
    rw [hcomp]
    apply List.filter_eq_nil_iff.mpr
    intro kv hkv
    obtain ⟨kv0, hkv0, hmap⟩ := List.mem_map.mp hkv
    have h0 : kv0.2 = 0 := rawEntriesFrom_zero hvest 0 kv0 hkv0
    by_cases he : kv0.1 = (d0 :: rest).length - 1
    · rw [if_pos he] at hmap
      rw [← hmap]
      simp [h0]
    · rw [if_neg he] at hmap
      rw [← hmap]
      simp [h0]

set_option maxRecDepth 8000 in
/-- Claim C1. At a time `now` at which no distribution slot has finished and
no amount has vested for the receiver (in particular before any slot's
start time), the compensation delta is zero — it is folded in only when
every slot is finished — so the computed claim amount is zero and the claim
(with no explicit amount) fails with `NothingToClaim`. -/
theorem claim_nothing_before_vesting (st : ContractState) (bal : String → Nat)
    (now : Nat) (sender : String) (receiverOpt : Option String)
    (c : Campaign) (A : Nat)
    (hc : st.campaign = some c) (hs : has_started c now = true)
    (hcl : c.closed = none)
    (hperm : is_authorized st sender = true ∨ sender = receiverOpt.getD sender)
    (hbl : is_blacklisted st (receiverOpt.getD sender) = false)
    (hga : get_allocation st (receiverOpt.getD sender) = some A)
    (hnotdone : ∀ d ∈ c.distributionType, slotDone now d = false)
    (hvest : ∀ d ∈ c.distributionType, slotVested A now d = 0) :
    claim st bal now sender receiverOpt none = .error .nothingToClaim
    ∧ compDelta A now c.distributionType = 0 := by
  have hent : newClaimEntries c.distributionType A
      (get_claims_for_address st (receiverOpt.getD sender)) now = [] :=
    newClaimEntries_eq_nil hvest hnotdone
  constructor
  · rw [claim_eq_claimTail hc hs hcl hperm hbl hga]
    simp [hent, claimTail, sumVals]
  · cases hd : c.distributionType with
    | nil => simp [compDelta]
    | cons d0 rest =>
      refine compDelta_not_all_done ⟨d0, by simp, ?_⟩
      rw [hd] at hnotdone
      exact hnotdone d0 (by simp)

/-- Witness for C1 at concrete inputs: at `now = 50` (campaign started,
slot not started) the claim fails with `NothingToClaim` and the
compensation delta is zero. -/
theorem claim_nothing_before_vesting_witness :
    claim stC1 (fun _ => 100000) 50 "b" none none = .error .nothingToClaim
    ∧ compDelta 1000 50 [.linearVesting percScale 1000 2000 none] = 0 :=
  claim_nothing_before_vesting stC1 (fun _ => 100000) 50 "b" none _ 1000
    rfl (by rfl) rfl (Or.inr rfl) (by rfl) (by rfl)
    (by intro d hd; fin_cases hd; rfl)
    (by intro d hd; fin_cases hd; rfl)

/-! ## C10 — claims never compare the time against campaign.end_time -/

theorem claimTail_scrub (st : ContractState) (c : Campaign) (receiver : String)
    (A : Nat) (prev : List (Nat × ClaimRecord)) (entries : List (Nat × Nat))
    (actual now : Nat) (bal : String → Nat) (e : Nat) :
    scrubEnd (claimTail (setEndTime st e) { c with endTime := e }
      receiver A prev entries actual now bal) =
      scrubEnd (claimTail st c receiver A prev entries actual now bal) := by
  obtain ⟨camp, al, cl, bl, aw, ow⟩ := st
  obtain ⟨cn, cd, cty, ctr, ccl, cdi, cst, cet, ccls⟩ := c
  simp only [claimTail, setEndTime]
  by_cases h0 : actual = 0
  · simp [h0, scrubEnd]
  by_cases h1 : bal ctr.denom < actual
  · simp [h0, h1, scrubEnd]
  by_cases h2 : (distribute_claim cdi entries actual now).1 = 0
  · cases hca : checked_add ccl.amount actual with
    | none => simp [h0, h1, h2, hca, scrubEnd]
    | some nc =>
      by_cases h3 : A < sumClaimAmounts
          (aggregate_claims prev (distribute_claim cdi entries actual now).2)
      · simp [h0, h1, h2, hca, h3, scrubEnd]
      · simp [h0, h1, h2, hca, h3, scrubEnd, setEndTime]
  · simp [h0, h1, h2, scrubEnd]

set_option maxRecDepth 8000 in
/-- Claim C10. `claim` never compares the block time against
`campaign.end_time`: its outcome — error or success, the error produced,
the transfer queued, and the resulting state up to the stored `endTime`
itself — is unchanged when `endTime` is replaced by an arbitrary value, so
claims remain possible arbitrarily long after `end_time` until the campaign
is explicitly closed. -/
theorem claim_ignores_end_time (st : ContractState) (bal : String → Nat)
    (now : Nat) (sender : String) (receiverOpt : Option String)
    (amountOpt : Option Nat) (e : Nat) :
    scrubEnd (claim (setEndTime st e) bal now sender receiverOpt amountOpt) =
      scrubEnd (claim st bal now sender receiverOpt amountOpt) := by
  obtain ⟨camp, al, cl, bl, aw, ow⟩ := st
  cases camp with
  | none => rfl
  | some c =>
    obtain ⟨cn, cd, cty, ctr, ccl, cdi, cst, cet, ccls⟩ := c
    simp only [claim, setEndTime, Option.map_some', has_started, is_authorized,
      is_owner, is_blacklisted, get_allocation, get_claims_for_address]
    repeat
      first
        | rfl
        | exact claimTail_scrub
            ⟨some ⟨cn, cd, cty, ctr, ccl, cdi, cst, cet, ccls⟩, al, cl, bl, aw, ow⟩
            ⟨cn, cd, cty, ctr, ccl, cdi, cst, cet, ccls⟩ _ _ _ _ _ _ _ _
        | split

/-! ## Sum lemmas for association lists (towards C2 and C3) -/

theorem mapGet_mem {κ α : Type} [DecidableEq κ] {l : List (κ × α)} {k : κ} {v : α}
    (h : mapGet l k = some v) : (k, v) ∈ l := by
  induction l with
  | nil => simp [mapGet] at h
  | cons e rest ih =>
    obtain ⟨a, b⟩ := e
    rw [mapGet] at h
    by_cases he : a = k
    · rw [if_pos he] at h
      injection h with hv
      subst he
      subst hv
      exact List.mem_cons_self _ _
    · rw [if_neg he] at h
      exact List.mem_cons.mpr (Or.inr (ih h))

theorem mapRemove_of_get_none {κ α : Type} [DecidableEq κ] {l : List (κ × α)}
    {k : κ} (h : mapGet l k = none) : mapRemove l k = l := by
  induction l with
  | nil => rfl
  | cons e rest ih =>
    rw [mapGet] at h
    by_cases he : e.1 = k
    · rw [if_pos he] at h; cases h
    · rw [if_neg he] at h
      have hstep : mapRemove (e :: rest) k = e :: mapRemove rest k := by
        simp [mapRemove, List.filter_cons, he]
      rw [hstep, ih h]

theorem mapGet_none_of_not_mem {κ α : Type} [DecidableEq κ] {l : List (κ × α)}
    {k : κ} (h : ∀ p ∈ l, p.1 ≠ k) : mapGet l k = none := by
  induction l with
  | nil => rfl
  | cons e rest ih =>
    rw [mapGet, if_neg (h e (by simp))]
    exact ih fun p hp => h p (List.mem_cons.mpr (Or.inr hp))

theorem mapRemove_nodupKeys {κ α : Type} [DecidableEq κ] {l : List (κ × α)}
    (h : NodupKeys l) (k : κ) : NodupKeys (mapRemove l k) := by
  unfold NodupKeys at *
  exact ((List.filter_sublist l).map Prod.fst).nodup h

theorem mapSave_nodupKeys {κ α : Type} [DecidableEq κ] {l : List (κ × α)}
    (h : NodupKeys l) (k : κ) (v : α) : NodupKeys (mapSave l k v) := by
  unfold NodupKeys mapSave
  rw [List.map_cons, List.nodup_cons]
  refine ⟨?_, mapRemove_nodupKeys h k⟩
  intro hmem
  obtain ⟨p, hp, hpk⟩ := List.mem_map.mp hmem
  rw [mapRemove, List.mem_filter] at hp
  have := hp.2
  simp only [decide_not, Bool.not_eq_true', decide_eq_false_iff_not] at this
  exact this hpk

theorem sumClaimAmounts_append (l1 l2 : List (Nat × ClaimRecord)) :
    sumClaimAmounts (l1 ++ l2) = sumClaimAmounts l1 + sumClaimAmounts l2 := by
  induction l1 with
  | nil => simp [sumClaimAmounts]
  | cons e rest ih =>
    rw [List.cons_append, sumClaimAmounts, sumClaimAmounts, ih]
    omega

/-- Splitting the amount sum of a well-formed claims record at a key. -/
theorem sumClaimAmounts_split {l : List (Nat × ClaimRecord)} (h : NodupKeys l)
    (k : Nat) :
    sumClaimAmounts l = prevAmount l k + sumClaimAmounts (mapRemove l k) := by
  induction l with
  | nil => rfl
  | cons e rest ih =>
    unfold NodupKeys at h
    rw [List.map_cons, List.nodup_cons] at h
    obtain ⟨hnot, hrest⟩ := h
    by_cases he : e.1 = k
    · have hzero : mapGet rest k = none := by
        apply mapGet_none_of_not_mem
        intro p hp hpk
        exact hnot (he ▸ hpk ▸ List.mem_map.mpr ⟨p, hp, rfl⟩)
      have hstep : mapRemove (e :: rest) k = mapRemove rest k := by
        simp [mapRemove, List.filter_cons, he]
      rw [hstep, mapRemove_of_get_none hzero, sumClaimAmounts]
      have hget : prevAmount (e :: rest) k = e.2.1 := by
        simp [prevAmount, mapGet, he]
      rw [hget]
    · have hstep : mapRemove (e :: rest) k = e :: mapRemove rest k := by
        simp [mapRemove, List.filter_cons, he]
      have hget : prevAmount (e :: rest) k = prevAmount rest k := by
        simp [prevAmount, mapGet, he]
      rw [hstep, hget, sumClaimAmounts, sumClaimAmounts, ih hrest]
      omega

theorem sumClaimAmounts_mapSave (l : List (Nat × ClaimRecord)) (k : Nat)
    (v : ClaimRecord) :
    sumClaimAmounts (mapSave l k v) = v.1 + sumClaimAmounts (mapRemove l k) := rfl

/-- Aggregation adds the delta amounts to the previous amounts and preserves
key well-formedness. -/
theorem aggregate_claims_sum {prev : List (Nat × ClaimRecord)}
    (delta : List (Nat × ClaimRecord)) (h : NodupKeys prev) :
    sumClaimAmounts (aggregate_claims prev delta) =
      sumClaimAmounts prev + sumClaimAmounts delta
    ∧ NodupKeys (aggregate_claims prev delta) := by
  induction delta generalizing prev with
  | nil => exact ⟨by simp [aggregate_claims, sumClaimAmounts], h⟩
  | cons kv rest ih =>
    have hfold : aggregate_claims prev (kv :: rest) =
        aggregate_claims
          (match mapGet prev kv.1 with
            | some r => mapSave prev kv.1 (r.1 + kv.2.1, kv.2.2)
            | none => mapSave prev kv.1 kv.2) rest := by
      rw [aggregate_claims, List.foldl_cons]
      rfl
    cases hmg : mapGet prev kv.1 with
    | some r =>
      have hstep : sumClaimAmounts (mapSave prev kv.1 (r.1 + kv.2.1, kv.2.2)) =
          sumClaimAmounts prev + kv.2.1 := by
        rw [sumClaimAmounts_mapSave]
        have hsplit := sumClaimAmounts_split h kv.1
        have hpa : prevAmount prev kv.1 = r.1 := by simp [prevAmount, hmg]
        rw [hpa] at hsplit
        simp only []
        omega
      obtain ⟨hsum, hnd⟩ := ih (mapSave_nodupKeys h kv.1 (r.1 + kv.2.1, kv.2.2))
      rw [hfold, hmg]
      refine ⟨?_, hnd⟩
      rw [hsum, hstep, sumClaimAmounts]
      omega
    | none =>
      have hstep : sumClaimAmounts (mapSave prev kv.1 kv.2) =
          sumClaimAmounts prev + kv.2.1 := by
        rw [sumClaimAmounts_mapSave, mapRemove_of_get_none hmg]
        omega
      obtain ⟨hsum, hnd⟩ := ih (mapSave_nodupKeys h kv.1 kv.2)
      rw [hfold, hmg]
      refine ⟨?_, hnd⟩
      rw [hsum, hstep, sumClaimAmounts]
      omega

/-- Conservation of the two-phase distributor: the recorded amounts grow by
exactly what the remainder shrinks by, and the remainder never grows. -/
theorem distribute_to_slots_sum (entries : List (Nat × Nat)) (now : Nat) :
    ∀ (slots : List Nat) (remaining : Nat) (acc : List (Nat × ClaimRecord)),
    (distribute_to_slots entries now slots remaining acc).1 ≤ remaining
    ∧ sumClaimAmounts (distribute_to_slots entries now slots remaining acc).2 +
        (distribute_to_slots entries now slots remaining acc).1 =
      sumClaimAmounts acc + remaining := by
  intro slots
  induction slots with
  | nil => intro remaining acc; simp [distribute_to_slots]
  | cons k rest ih =>
    intro remaining acc
    rw [distribute_to_slots]
    by_cases h0 : remaining = 0
    · simp [h0]
    · rw [if_neg h0]
      simp only []
      by_cases hT : 0 < min remaining ((mapGet entries k).getD 0)
      · rw [if_pos hT]
        have htake : min remaining ((mapGet entries k).getD 0) ≤ remaining :=
          Nat.min_le_left _ _
        obtain ⟨h1, h2⟩ := ih (remaining - min remaining ((mapGet entries k).getD 0))
          (acc ++ [(k, (min remaining ((mapGet entries k).getD 0), now))])
        refine ⟨by omega, ?_⟩
        rw [h2, sumClaimAmounts_append]
        simp only [sumClaimAmounts]
        omega
      · rw [if_neg hT]
        exact ih remaining acc

/-- Conservation for `distribute_claim` started from an empty record. -/
theorem distribute_claim_sum (dist : List DistributionType)
    (entries : List (Nat × Nat)) (actual now : Nat) :
    (distribute_claim dist entries actual now).1 ≤ actual
    ∧ sumClaimAmounts (distribute_claim dist entries actual now).2 +
        (distribute_claim dist entries actual now).1 = actual := by
  simp only [distribute_claim]
  obtain ⟨h1, h2⟩ := distribute_to_slots_sum entries now
    (slotsWithNewClaims entries true 0 dist) actual []
  obtain ⟨h3, h4⟩ := distribute_to_slots_sum entries now
    (slotsWithNewClaims entries false 0 dist)
    (distribute_to_slots entries now (slotsWithNewClaims entries true 0 dist) actual []).1
    (distribute_to_slots entries now (slotsWithNewClaims entries true 0 dist) actual []).2
  have h0 : sumClaimAmounts ([] : List (Nat × ClaimRecord)) = 0 := rfl
  constructor
  · omega
  · rw [h4]
    omega

/-! ## C3 — per-receiver bound and conservation -/

theorem checked_add_some {a b n : Nat} (h : checked_add a b = some n) :
    n = a + b := by
  unfold checked_add at h
  split at h
  · injection h with h'
    exact h'.symm
  · cases h

/-- Full inversion of a successful `claimTail`. -/
theorem claimTail_ok_inv {st : ContractState} {c : Campaign} {receiver : String}
    {A : Nat} {prev : List (Nat × ClaimRecord)} {entries : List (Nat × Nat)}
    {actual now : Nat} {bal : String → Nat} {stR : ContractState}
    {msgs : List BankMsgSend}
    (h : claimTail st c receiver A prev entries actual now bal = .ok (stR, msgs)) :
    0 < actual ∧ actual ≤ bal c.totalReward.denom
    ∧ ∃ rec, distribute_claim c.distributionType entries actual now = (0, rec)
      ∧ sumClaimAmounts (aggregate_claims prev rec) ≤ A
      ∧ stR = { st with
          campaign := some { c with claimed :=
            { c.claimed with amount := c.claimed.amount + actual } }
          claims := mapSave st.claims receiver (aggregate_claims prev rec) }
      ∧ msgs = [{ toAddress := receiver,
                  amount := [{ denom := c.totalReward.denom, amount := actual }] }] := by
  simp only [claimTail] at h
  by_cases h0 : actual = 0
  · simp [h0] at h
  by_cases h1 : bal c.totalReward.denom < actual
  · simp [h0, h1] at h
  by_cases h2 : (distribute_claim c.distributionType entries actual now).1 = 0
  · cases hca : checked_add c.claimed.amount actual with
    | none => simp [h0, h1, h2, hca] at h
    | some nc =>
      by_cases h3 : A < sumClaimAmounts
          (aggregate_claims prev (distribute_claim c.distributionType entries actual now).2)
      · simp [h0, h1, h2, hca, h3] at h
      · simp [h0, h1, h2, hca, h3, Prod.mk.injEq] at h
        obtain ⟨hst, hmsgs⟩ := h
        refine ⟨Nat.pos_of_ne_zero h0, Nat.not_lt.mp h1,
          (distribute_claim c.distributionType entries actual now).2, ?_, ?_, ?_, ?_⟩
        · rw [← h2]
        · exact Nat.not_lt.mp h3
        · rw [← hst, checked_add_some hca]
        · exact hmsgs.symm
  · simp [h0, h1, h2] at h

/-- Inversion of a successful `claim` down to the `claimTail` call. -/
theorem claim_ok_inv {st : ContractState} {bal : String → Nat} {now : Nat}
    {sender : String} {receiverOpt : Option String} {amountOpt : Option Nat}
    {stR : ContractState} {msgs : List BankMsgSend}
    (h : claim st bal now sender receiverOpt amountOpt = .ok (stR, msgs)) :
    ∃ c A actual, st.campaign = some c
      ∧ get_allocation st (receiverOpt.getD sender) = some A
      ∧ claimTail st c (receiverOpt.getD sender) A
          (get_claims_for_address st (receiverOpt.getD sender))
          (newClaimEntries c.distributionType A
            (get_claims_for_address st (receiverOpt.getD sender)) now)
          actual now bal = .ok (stR, msgs) := by
  simp only [claim] at h
  split at h
  · exact absurd h (by simp)
  rename_i c hc
  split at h
  · exact absurd h (by simp)
  split at h
  · exact absurd h (by simp)
  split at h
  · exact absurd h (by simp)
  split at h
  · exact absurd h (by simp)
  split at h
  · exact absurd h (by simp)
  rename_i A hga
  split at h
  · rename_i r
    split at h
    · exact absurd h (by simp)
    split at h
    · exact absurd h (by simp)
    exact ⟨c, A, r, hc, hga, h⟩
  · exact ⟨c, A, _, hc, hga, h⟩

theorem claimsTotal_mapSave (l : List (String × List (Nat × ClaimRecord)))
    (k : String) (v : List (Nat × ClaimRecord)) :
    claimsTotal (mapSave l k v) = sumClaimAmounts v + claimsTotal (mapRemove l k) := rfl

theorem claimsTotal_split {l : List (String × List (Nat × ClaimRecord))}
    (h : NodupKeys l) (k : String) :
    claimsTotal l = sumClaimAmounts ((mapGet l k).getD []) +
      claimsTotal (mapRemove l k) := by
  induction l with
  | nil => rfl
  | cons e rest ih =>
    unfold NodupKeys at h
    rw [List.map_cons, List.nodup_cons] at h
    obtain ⟨hnot, hrest⟩ := h
    by_cases he : e.1 = k
    · have hzero : mapGet rest k = none := by
        apply mapGet_none_of_not_mem
        intro p hp hpk
        exact hnot (he ▸ hpk ▸ List.mem_map.mpr ⟨p, hp, rfl⟩)
      have hstep : mapRemove (e :: rest) k = mapRemove rest k := by
        simp [mapRemove, List.filter_cons, he]
      rw [hstep, mapRemove_of_get_none hzero, claimsTotal]
      have hget : mapGet (e :: rest) k = some e.2 := by
        simp [mapGet, he]
      rw [hget]
      rfl
    · have hstep : mapRemove (e :: rest) k = e :: mapRemove rest k := by
        simp [mapRemove, List.filter_cons, he]
      have hget : mapGet (e :: rest) k = mapGet rest k := by
        simp [mapGet, he]
      rw [hstep, hget, claimsTotal, claimsTotal, ih hrest]
      omega

/-- Claim C3. After every successful claim for receiver `r`: the transfer is
a single amount `a`; the sum of `r`'s stored per-slot claim amounts in the
new state is at most `r`'s allocation (a violation would have failed with
`ExceededMaxClaimAmount`); `campaign.claimed.amount` is incremented by
exactly `a`; and — for a well-formed claims store — if
`campaign.claimed.amount` equalled the sum over all addresses of their
per-slot claimed amounts before the claim, it still does afterwards. -/
theorem claim_conservation (st : ContractState) (bal : String → Nat) (now : Nat)
    (sender : String) (receiverOpt : Option String) (amountOpt : Option Nat)
    (stR : ContractState) (msgs : List BankMsgSend)
    (hok : claim st bal now sender receiverOpt amountOpt = .ok (stR, msgs)) :
    ∃ c A a, st.campaign = some c
      ∧ get_allocation st (receiverOpt.getD sender) = some A
      ∧ msgs = [{ toAddress := receiverOpt.getD sender,
                  amount := [{ denom := c.totalReward.denom, amount := a }] }]
      ∧ 0 < a
      ∧ stR.campaign = some { c with claimed :=
          { c.claimed with amount := c.claimed.amount + a } }
      ∧ sumClaimAmounts (get_claims_for_address stR (receiverOpt.getD sender)) ≤ A
      ∧ (claimsWF st → claimsTotal st.claims = c.claimed.amount →
          claimsTotal stR.claims = c.claimed.amount + a) := by
  obtain ⟨c, A, actual, hc, hga, htail⟩ := claim_ok_inv hok
  obtain ⟨hpos, hle, rec, hdist, hbound, hstR, hmsgs⟩ := claimTail_ok_inv htail
  refine ⟨c, A, actual, hc, hga, hmsgs, hpos, ?_, ?_, ?_⟩
  · rw [hstR]
  · rw [hstR]
    unfold get_claims_for_address
    simp only []
    rw [mapGet_mapSave_self]
    exact hbound
  · intro hwf htot
    have hprevnd : NodupKeys (get_claims_for_address st (receiverOpt.getD sender)) := by
      unfold get_claims_for_address
      cases hmg : mapGet st.claims (receiverOpt.getD sender) with
      | none => simp [NodupKeys]
      | some l =>
        simpa using hwf.2 _ (mapGet_mem hmg)
    obtain ⟨hsum, -⟩ := aggregate_claims_sum rec hprevnd
    have hrecsum : sumClaimAmounts rec = actual := by
      have hds := distribute_claim_sum c.distributionType
        (newClaimEntries c.distributionType A
          (get_claims_for_address st (receiverOpt.getD sender)) now) actual now
      rw [hdist] at hds
      simpa using hds.2
    have hsplit := claimsTotal_split hwf.1 (receiverOpt.getD sender)
    rw [hstR]
    simp only []
    rw [claimsTotal_mapSave, hsum, hrecsum]
    unfold get_claims_for_address at hsplit ⊢
    omega

/-- Witness for C3 at a concrete successful claim (allocation 50, one
finished lump-sum slot, empty previous claims): the claim transfers 50,
increments `claimed` from 0 to 50, stores 50 ≤ 50 for the receiver, and the
conservation implication applies with both sides computing to 50. -/
theorem claim_conservation_witness :
    (∃ c A a, stC6.campaign = some c
      ∧ get_allocation stC6 ((none : Option String).getD "b") = some A
      ∧ [{ toAddress := "b", amount := [{ denom := "uom", amount := 50 }] }] =
          [({ toAddress := (none : Option String).getD "b",
              amount := [{ denom := c.totalReward.denom, amount := a }] } : BankMsgSend)]
      ∧ 0 < a
      ∧ stC3R.campaign = some { c with claimed :=
          { c.claimed with amount := c.claimed.amount + a } }
      ∧ sumClaimAmounts (get_claims_for_address stC3R ((none : Option String).getD "b")) ≤ A
      ∧ (claimsWF stC6 → claimsTotal stC6.claims = c.claimed.amount →
          claimsTotal stC3R.claims = c.claimed.amount + a))
    ∧ claimsWF stC6 ∧ claimsTotal stC6.claims = 0 ∧ claimsTotal stC3R.claims = 50 := by
  refine ⟨?_, ⟨by simp [NodupKeys, stC6, stPre], ?_⟩, rfl, rfl⟩
  · exact claim_conservation stC6 (fun _ => 100) 50 "b" none none stC3R
      [{ toAddress := "b", amount := [{ denom := "uom", amount := 50 }] }] (by rfl)
  · intro e he
    simp [stC6, stPre] at he

/-! ## C2 — the two-phase slot partition of a claim -/

/-- The greedy distributor leaves exactly
`remaining − min remaining (Σ available)`. -/
theorem distribute_to_slots_remaining (entries : List (Nat × Nat)) (now : Nat) :
    ∀ (slots : List Nat) (remaining : Nat) (acc : List (Nat × ClaimRecord)),
    (distribute_to_slots entries now slots remaining acc).1 =
      remaining - min remaining (sumAvail entries slots) := by
  intro slots
  induction slots with
  | nil => intro remaining acc; simp [distribute_to_slots, sumAvail]
  | cons k rest ih =>
    intro remaining acc
    rw [distribute_to_slots]
    by_cases h0 : remaining = 0
    · simp [h0]
    · rw [if_neg h0]
      simp only [sumAvail]
      by_cases hT : 0 < min remaining ((mapGet entries k).getD 0)
      · rw [if_pos hT]
        rw [ih]
        rcases Nat.le_total remaining ((mapGet entries k).getD 0) with hle | hle
        · rw [Nat.min_eq_left hle]
          have h1 := Nat.min_le_left (remaining - remaining) (sumAvail entries rest)
          have h2 := Nat.min_le_left remaining
            ((mapGet entries k).getD 0 + sumAvail entries rest)
          omega
        · rw [Nat.min_eq_right hle]
          have h3 := Nat.min_le_left (remaining - (mapGet entries k).getD 0)
            (sumAvail entries rest)
          rcases Nat.le_total (remaining - (mapGet entries k).getD 0)
            (sumAvail entries rest) with hc | hc
          · rw [Nat.min_eq_left hc]
            have : min remaining ((mapGet entries k).getD 0 + sumAvail entries rest)
                = remaining := by omega
            omega
          · rw [Nat.min_eq_right hc]
            have : min remaining ((mapGet entries k).getD 0 + sumAvail entries rest)
                = (mapGet entries k).getD 0 + sumAvail entries rest := by omega
            omega
      · rw [if_neg hT]
        rw [ih]
        have hz : min remaining ((mapGet entries k).getD 0) = 0 := by omega
        have ha : (mapGet entries k).getD 0 = 0 := by omega
        rw [ha]
        simp

/-- The greedy distributor appends records only for slots in its list, each
bounded by that slot's available amount and stamped with `now`. -/
theorem distribute_to_slots_structure (entries : List (Nat × Nat)) (now : Nat) :
    ∀ (slots : List Nat) (remaining : Nat) (acc : List (Nat × ClaimRecord)),
    ∃ add, (distribute_to_slots entries now slots remaining acc).2 = acc ++ add
      ∧ ∀ kv ∈ add, kv.1 ∈ slots ∧ kv.2.1 ≤ (mapGet entries kv.1).getD 0
          ∧ kv.2.2 = now := by
  intro slots
  induction slots with
  | nil =>
    intro remaining acc
    exact ⟨[], by simp [distribute_to_slots], by intro kv hkv; simp at hkv⟩
  | cons k rest ih =>
    intro remaining acc
    rw [distribute_to_slots]
    by_cases h0 : remaining = 0
    · rw [if_pos h0]
      exact ⟨[], by simp, by intro kv hkv; simp at hkv⟩
    · rw [if_neg h0]
      simp only []
      by_cases hT : 0 < min remaining ((mapGet entries k).getD 0)
      · rw [if_pos hT]
        obtain ⟨add, hadd, hprops⟩ :=
          ih (remaining - min remaining ((mapGet entries k).getD 0))
            (acc ++ [(k, (min remaining ((mapGet entries k).getD 0), now))])
        refine ⟨(k, (min remaining ((mapGet entries k).getD 0), now)) :: add, ?_, ?_⟩
        · rw [hadd]
          simp
        · intro kv hkv
          rcases List.mem_cons.mp hkv with he | ht
          · rw [he]
            exact ⟨by simp, Nat.min_le_right _ _, rfl⟩
          · obtain ⟨hm, hb, hts⟩ := hprops kv ht
            exact ⟨List.mem_cons.mpr (Or.inr hm), hb, hts⟩
      · rw [if_neg hT]
        obtain ⟨add, hadd, hprops⟩ := ih remaining acc
        refine ⟨add, hadd, ?_⟩
        intro kv hkv
        obtain ⟨hm, hb, hts⟩ := hprops kv hkv
        exact ⟨List.mem_cons.mpr (Or.inr hm), hb, hts⟩

theorem slotsWithNewClaims_ge (entries : List (Nat × Nat)) (b : Bool) :
    ∀ (dist : List DistributionType) (k j : Nat),
    j ∈ slotsWithNewClaims entries b k dist → k ≤ j := by
  intro dist
  induction dist with
  | nil => intro k j hj; simp [slotsWithNewClaims] at hj
  | cons d rest ih =>
    intro k j hj
    rw [slotsWithNewClaims] at hj
    rcases List.mem_append.mp hj with h1 | h2
    · by_cases hc : isLumpSum d = b ∧ (mapGet entries k).isSome = true
      · rw [if_pos hc] at h1
        simp at h1
        omega
      · rw [if_neg hc] at h1
        simp at h1
    · have := ih (k + 1) j h2
      omega

theorem slotsWithNewClaims_sorted (entries : List (Nat × Nat)) (b : Bool) :
    ∀ (dist : List DistributionType) (k : Nat),
    List.Pairwise (· < ·) (slotsWithNewClaims entries b k dist) := by
  intro dist
  induction dist with
  | nil => intro k; simp [slotsWithNewClaims]
  | cons d rest ih =>
    intro k
    rw [slotsWithNewClaims]
    by_cases hc : isLumpSum d = b ∧ (mapGet entries k).isSome = true
    · rw [if_pos hc]
      rw [List.singleton_append, List.pairwise_cons]
      refine ⟨?_, ih (k + 1)⟩
      intro j hj
      have := slotsWithNewClaims_ge entries b rest (k + 1) j hj
      omega
    · rw [if_neg hc]
      rw [List.nil_append]
      exact ih (k + 1)

/-- The distribution-invariant failure branch of `claimTail`: a nonzero
remainder after both phases yields the bug-indicating `CampaignError` (and,
by C4, nothing is persisted). -/
theorem claimTail_distribution_error (st : ContractState) (c : Campaign)
    (receiver : String) (A : Nat) (prev : List (Nat × ClaimRecord))
    (entries : List (Nat × Nat)) (actual now : Nat) (bal : String → Nat)
    (h0 : actual ≠ 0) (h1 : ¬ bal c.totalReward.denom < actual)
    (h2 : (distribute_claim c.distributionType entries actual now).1 ≠ 0) :
    claimTail st c receiver A prev entries actual now bal =
      .error (.campaignError distributionBugMsg) := by
  simp [claimTail, h0, h1, h2]

/-- Claim C2. For every successful claim, the actual claim amount is
partitioned across slots by the two-phase greedy of `claim`: lump-sum slots
first, then linear-vesting slots, each phase walking its slot list in
ascending index order (third conjunct) and taking `min(remaining, new_k)`
from each slot; the records split into a lump-sum part followed by a
linear-vesting part, the lump-sum part receives
`min(actual, Σ lump-sum new_k)` (lump-sum priority), every take is bounded
by that slot's new amount and stamped with the claim time, the remainder
ends at zero with the full amount recorded, and (second conjunct) a
non-zero remainder after both phases makes the handler fail with the
bug-indicating `CampaignError` (`distributionBugMsg`) instead of
persisting anything. -/
theorem claim_partition :
    (∀ (st : ContractState) (bal : String → Nat) (now : Nat) (sender : String)
        (receiverOpt : Option String) (amountOpt : Option Nat)
        (stR : ContractState) (msgs : List BankMsgSend),
      claim st bal now sender receiverOpt amountOpt = .ok (stR, msgs) →
      ∃ c A actual entries rec recLump recLin,
        st.campaign = some c
        ∧ get_allocation st (receiverOpt.getD sender) = some A
        ∧ entries = newClaimEntries c.distributionType A
            (get_claims_for_address st (receiverOpt.getD sender)) now
        ∧ distribute_claim c.distributionType entries actual now = (0, rec)
        ∧ stR.claims = mapSave st.claims (receiverOpt.getD sender)
            (aggregate_claims
              (get_claims_for_address st (receiverOpt.getD sender)) rec)
        ∧ msgs = [{ toAddress := receiverOpt.getD sender,
                    amount := [{ denom := c.totalReward.denom, amount := actual }] }]
        ∧ rec = recLump ++ recLin
        ∧ (∀ kv ∈ recLump,
            kv.1 ∈ slotsWithNewClaims entries true 0 c.distributionType)
        ∧ (∀ kv ∈ recLin,
            kv.1 ∈ slotsWithNewClaims entries false 0 c.distributionType)
        ∧ sumClaimAmounts recLump = min actual
            (sumAvail entries (slotsWithNewClaims entries true 0 c.distributionType))
        ∧ sumClaimAmounts rec = actual
        ∧ (∀ kv ∈ rec, kv.2.1 ≤ (mapGet entries kv.1).getD 0 ∧ kv.2.2 = now))
    ∧ (∀ (st : ContractState) (c : Campaign) (receiver : String) (A : Nat)
        (prev : List (Nat × ClaimRecord)) (entries : List (Nat × Nat))
        (actual now : Nat) (bal : String → Nat),
      actual ≠ 0 → ¬ bal c.totalReward.denom < actual →
      (distribute_claim c.distributionType entries actual now).1 ≠ 0 →
      claimTail st c receiver A prev entries actual now bal =
        .error (.campaignError distributionBugMsg))
    ∧ (∀ (entries : List (Nat × Nat)) (b : Bool) (k : Nat)
        (dist : List DistributionType),
      List.Pairwise (· < ·) (slotsWithNewClaims entries b k dist)) := by
  refine ⟨?_, ?_, ?_⟩
  · intro st bal now sender receiverOpt amountOpt stR msgs hok
    obtain ⟨c, A, actual, hc, hga, htail⟩ := claim_ok_inv hok
    obtain ⟨hpos, hle, rec, hdist, hbound, hstR, hmsgs⟩ := claimTail_ok_inv htail
    refine ⟨c, A, actual,
      newClaimEntries c.distributionType A
        (get_claims_for_address st (receiverOpt.getD sender)) now,
      rec, ?_⟩
    set entries := newClaimEntries c.distributionType A
      (get_claims_for_address st (receiverOpt.getD sender)) now with hentries
    set lumpSlots := slotsWithNewClaims entries true 0 c.distributionType with hls
    set linSlots := slotsWithNewClaims entries false 0 c.distributionType with hlins
    obtain ⟨add1, hadd1, hprops1⟩ :=
      distribute_to_slots_structure entries now lumpSlots actual []
    obtain ⟨add2, hadd2, hprops2⟩ :=
      distribute_to_slots_structure entries now linSlots
        (distribute_to_slots entries now lumpSlots actual []).1
        (distribute_to_slots entries now lumpSlots actual []).2
    have hdc2 : (distribute_claim c.distributionType entries actual now).2 =
        (distribute_to_slots entries now linSlots
          (distribute_to_slots entries now lumpSlots actual []).1
          (distribute_to_slots entries now lumpSlots actual []).2).2 := rfl
    have hrec2 : rec = (distribute_to_slots entries now linSlots
        (distribute_to_slots entries now lumpSlots actual []).1
        (distribute_to_slots entries now lumpSlots actual []).2).2 := by
      rw [← hdc2, hdist]
    have haddnil : (distribute_to_slots entries now lumpSlots actual []).2 = add1 := by
      rw [hadd1]
      simp
    have hrec : rec = add1 ++ add2 := by
      rw [hrec2, hadd2, haddnil]
    refine ⟨add1, add2, hc, hga, rfl, hdist, ?_, hmsgs, hrec, ?_, ?_, ?_, ?_, ?_⟩
    · rw [hstR]
    · intro kv hkv
      exact (hprops1 kv hkv).1
    · intro kv hkv
      exact (hprops2 kv hkv).1
    · have hsum := (distribute_to_slots_sum entries now lumpSlots actual []).2
      have hrem := distribute_to_slots_remaining entries now lumpSlots actual []
      have hminle : min actual (sumAvail entries lumpSlots) ≤ actual :=
        Nat.min_le_left _ _
      have h0 : sumClaimAmounts ([] : List (Nat × ClaimRecord)) = 0 := rfl
      rw [haddnil] at hsum
      omega
    · have hds := distribute_claim_sum c.distributionType entries actual now
      rw [hdist] at hds
      simpa using hds.2
    · intro kv hkv
      rw [hrec] at hkv
      rcases List.mem_append.mp hkv with h1 | h2
      · exact ⟨(hprops1 kv h1).2.1, (hprops1 kv h1).2.2⟩
      · exact ⟨(hprops2 kv h2).2.1, (hprops2 kv h2).2.2⟩
  · intro st c receiver A prev entries actual now bal h0 h1 h2
    exact claimTail_distribution_error st c receiver A prev entries actual now bal
      h0 h1 h2
  · intro entries b k dist
    exact slotsWithNewClaims_sorted entries b dist k

/-- Witness for C2 at concrete inputs: the successful claim on `stC6`
satisfies the partition properties; a (hypothetical) claimable-amount bug —
empty entries with a positive resolved amount — makes `claimTail` fail with
the distribution-error `CampaignError`; and a concrete slot list is
strictly ascending. -/
theorem claim_partition_witness :
    (∃ c A actual entries rec recLump recLin,
      stC6.campaign = some c
      ∧ get_allocation stC6 ((none : Option String).getD "b") = some A
      ∧ entries = newClaimEntries c.distributionType A
          (get_claims_for_address stC6 ((none : Option String).getD "b")) 50
      ∧ distribute_claim c.distributionType entries actual 50 = (0, rec)
      ∧ stC3R.claims = mapSave stC6.claims ((none : Option String).getD "b")
          (aggregate_claims
            (get_claims_for_address stC6 ((none : Option String).getD "b")) rec)
      ∧ [{ toAddress := "b", amount := [{ denom := "uom", amount := 50 }] }] =
          [({ toAddress := (none : Option String).getD "b",
              amount := [{ denom := c.totalReward.denom, amount := actual }] } : BankMsgSend)]
      ∧ rec = recLump ++ recLin
      ∧ (∀ kv ∈ recLump,
          kv.1 ∈ slotsWithNewClaims entries true 0 c.distributionType)
      ∧ (∀ kv ∈ recLin,
          kv.1 ∈ slotsWithNewClaims entries false 0 c.distributionType)
      ∧ sumClaimAmounts recLump = min actual
          (sumAvail entries (slotsWithNewClaims entries true 0 c.distributionType))
      ∧ sumClaimAmounts rec = actual
      ∧ (∀ kv ∈ rec, kv.2.1 ≤ (mapGet entries kv.1).getD 0 ∧ kv.2.2 = 50))
    ∧ claimTail stC6
        { name := "c", description := "c", ty := "airdrop"
          totalReward := { denom := "uom", amount := 100 }
          claimed := { denom := "uom", amount := 0 }
          distributionType := [.lumpSum percScale 10]
          startTime := 10, endTime := 100, closed := none }
        "b" 5 [] [] 1 0 (fun _ => 100) = .error (.campaignError distributionBugMsg)
    ∧ List.Pairwise (· < ·)
        (slotsWithNewClaims [(0, 25), (1, 25)] true 0
          [.lumpSum percScale 10, .lumpSum percScale 20]) := by
  refine ⟨?_, ?_, ?_⟩
  · exact (claim_partition).1 stC6 (fun _ => 100) 50 "b" none none stC3R
      [{ toAddress := "b", amount := [{ denom := "uom", amount := 50 }] }] (by rfl)
  · exact (claim_partition).2.1 stC6 _ "b" 5 [] [] 1 0 (fun _ => 100)
      (by decide) (by decide) (by decide)
  · exact (claim_partition).2.2 [(0, 25), (1, 25)] true 0
      [.lumpSum percScale 10, .lumpSum percScale 20]

end Claimdrop
